import Mathlib

/-!
Verification development for the duckstation recompiler core and GPU batch
configuration.  The repository sources under verification expose only the
declaration surface (`cpu_recompiler_code_generator.h`, `gpu_hw.h`); the
implementation of the code-generation core is therefore modelled from the
natural-language specification, while the GPU batch logic is embedded
directly from the inline definitions in `gpu_hw.h`.
-/

namespace CPU.Recompiler

/-- Number of host registers available to the register cache in the model. -/
abbrev NHost : Nat := 4

/-- Host register identifier (opaque id for a physical host register). -/
abbrev HReg : Type := Fin NHost

/-- Guest architectural register identifier (MIPS has 32 registers). -/
abbrev Reg : Type := Fin 32

/-- Modelled from the spec: the guest CPU state record (missing from src/,
only declared as `Core* m_cpu`).  Architectural registers, program counter,
the pending branch target of the delay-slot state machine, and the cycle
counter. -/
@[ext]
structure GuestState where
  regs : Reg → Nat
  pc : Nat
  branchTarget : Option Nat
  cycles : Nat

/-- Reading a guest register: register 0 is hardwired to zero. -/
def readReg (regs : Reg → Nat) (r : Reg) : Nat :=
  if r = 0 then 0 else regs r

/-- Writing a guest register: writes to register 0 are discarded. -/
def writeReg (regs : Reg → Nat) (r : Reg) (v : Nat) : Reg → Nat :=
  if r = 0 then regs else Function.update regs r v

/-- Modelled from the spec: decoded guest instructions.  The dedicated
handlers declared in the source are `lui`, `ori`, `sll`, `srl`, `addiu`;
`beq` is a branch (fallback-routed) and `invalid` has neither a dedicated
handler nor a fallback. -/
inductive Instr where
  | lui (rt : Reg) (imm : Nat)
  | ori (rt rs : Reg) (imm : Nat)
  | sll (rd rt : Reg) (shamt : Nat)
  | srl (rd rt : Reg) (shamt : Nat)
  | addiu (rt rs : Reg) (imm : Nat)
  | beq (rs rt : Reg) (target : Nat)
  | invalid
deriving DecidableEq

/-- Sign extension of a 16-bit immediate to 32 bits. -/
def signExt16 (imm : Nat) : Nat :=
  let j := imm % 65536
  if j < 32768 then j else j + 4294901760

/-- The value written by `lui`: immediate shifted into the upper half-word. -/
def luiConst (imm : Nat) : Nat :=
  ((imm % 65536) <<< 16) % 2 ^ 32

/-- Register write performed by one instruction (destination, value),
reading operands from the pre-instruction register file. -/
def instrWrite (i : Instr) (regs : Reg → Nat) : Option (Reg × Nat) :=
  match i with
  | .lui rt imm => some (rt, luiConst imm)
  | .ori rt rs imm => some (rt, (readReg regs rs ||| imm % 65536) % 2 ^ 32)
  | .sll rd rt shamt => some (rd, (readReg regs rt <<< (shamt % 32)) % 2 ^ 32)
  | .srl rd rt shamt => some (rd, (readReg regs rt % 2 ^ 32) >>> (shamt % 32))
  | .addiu rt rs imm => some (rt, (readReg regs rs + signExt16 imm) % 2 ^ 32)
  | .beq _ _ _ => none
  | .invalid => none

/-- Branch target requested by one instruction, decided at runtime from the
pre-instruction register file (`none` when not taken or not a branch). -/
def instrBranch (i : Instr) (regs : Reg → Nat) : Option Nat :=
  match i with
  | .beq rs rt target => if readReg regs rs = readReg regs rt then some target else none
  | _ => none

/-- Modelled from the spec: the reference interpreter for a single
instruction (the interpreter's per-opcode semantics are external to the
code-generation core).  The delay-slot rule: a branch target pending from
the previous instruction becomes the program counter only after the current
(delay-slot) instruction has executed; the branch decision itself was taken
from the register file as it was before the delay slot ran. -/
def interpretOne (g : GuestState) (i : Instr) : GuestState :=
  { regs := match instrWrite i g.regs with
            | some (r, v) => writeReg g.regs r v
            | none => g.regs
    pc := match g.branchTarget with
          | some t => t
          | none => g.pc + 4
    branchTarget := instrBranch i g.regs
    cycles := g.cycles + 1 }

/-- Interpreting a whole block instruction-by-instruction. -/
def interpretBlock (block : List Instr) (g : GuestState) : GuestState :=
  block.foldl interpretOne g

/-- Per-guest-register cache state: unallocated, cached in a host register
with a dirty bit, or resident in the guest-state record. -/
inductive GuestRegState where
  | unallocated
  | cached (h : HReg) (dirty : Bool)
  | inMemory
deriving DecidableEq

/-- Modelled from the spec: the register cache (its implementation lives in
`cpu_recompiler_register_cache.h`, absent from src/).  `lruOrder` lists the
in-use host registers from least to most recently used; `pinned` marks host
registers that must not be chosen as spill victims while one instruction's
multi-step emission is in progress. -/
structure RegisterCache where
  regState : Reg → GuestRegState
  lruOrder : List HReg
  pinned : List HReg

/-- Cache state at block entry: nothing cached, all host registers free. -/
def initialCache : RegisterCache :=
  { regState := fun _ => .unallocated, lruOrder := [], pinned := [] }

/-- Mark a host register as most recently used. -/
def touchLRU (cs : RegisterCache) (h : HReg) : RegisterCache :=
  { cs with lruOrder := cs.lruOrder.erase h ++ [h] }

/-- Pin a host register for the duration of one instruction's emission. -/
def pinReg (cs : RegisterCache) (h : HReg) : RegisterCache :=
  { cs with pinned := h :: cs.pinned }

/-- Release a pin. -/
def unpinReg (cs : RegisterCache) (h : HReg) : RegisterCache :=
  { cs with pinned := cs.pinned.erase h }

/-- Binary operation codes for host arithmetic on register pairs. -/
inductive Binop where
  | add
  | mul
  | shl
  | shr
  | or
deriving DecidableEq

/-- Unary host operations with an immediate operand (32-bit semantics). -/
inductive Uop where
  | orImm (n : Nat)
  | shlImm (n : Nat)
  | shrImm (n : Nat)
  | addImm (n : Nat)
deriving DecidableEq

/-- Evaluate a unary host operation (32-bit, wrap-around). -/
def evalUop (u : Uop) (v : Nat) : Nat :=
  match u with
  | .orImm n => (v ||| n) % 2 ^ 32
  | .shlImm n => (v <<< n) % 2 ^ 32
  | .shrImm n => (v % 2 ^ 32) >>> n
  | .addImm n => (v + n) % 2 ^ 32

/-- Modelled from the spec: the host instructions the code generator emits
(the concrete encoder is external).  Data moves are exact; arithmetic wraps
at the operand width; `callInterp` is the fallback call into the
interpreter's semantics for a single opcode; `commitBranch` is the runtime
conditional program-counter update of the delay-slot state machine. -/
inductive HostOp where
  | loadGuestReg (h : HReg) (r : Reg)
  | storeGuestReg (r : Reg) (h : HReg)
  | loadConst (h : HReg) (v : Nat)
  | copyReg (dst src : HReg)
  | applyUop (h : HReg) (u : Uop)
  | applyBinop (dst src : HReg) (b : Binop) (width : Nat)
  | advancePC
  | commitBranch
  | addCycles (n : Nat)
  | callInterp (i : Instr)
deriving DecidableEq

/-- State of the host machine executing generated code: host registers plus
the guest CPU state record in memory. -/
@[ext]
structure HostState where
  hostRegs : HReg → Nat
  guest : GuestState

/-- Evaluate a binary host operation, wrapping at the given width. -/
def evalBinop (b : Binop) (a c w : Nat) : Nat :=
  match b with
  | .add => (a + c) % 2 ^ w
  | .mul => (a * c) % 2 ^ w
  | .shl => (a <<< c) % 2 ^ w
  | .shr => (a >>> c) % 2 ^ w
  | .or => (a ||| c) % 2 ^ w

/-- Execute a single emitted host operation. -/
def execOp (hs : HostState) : HostOp → HostState
  | .loadGuestReg h r =>
      { hs with hostRegs := Function.update hs.hostRegs h (readReg hs.guest.regs r) }
  | .storeGuestReg r h =>
      { hs with guest := { hs.guest with regs := Function.update hs.guest.regs r (hs.hostRegs h) } }
  | .loadConst h v => { hs with hostRegs := Function.update hs.hostRegs h v }
  | .copyReg dst src => { hs with hostRegs := Function.update hs.hostRegs dst (hs.hostRegs src) }
  | .applyUop h u => { hs with hostRegs := Function.update hs.hostRegs h (evalUop u (hs.hostRegs h)) }
  | .applyBinop dst src b w =>
      { hs with hostRegs := Function.update hs.hostRegs dst (evalBinop b (hs.hostRegs dst) (hs.hostRegs src) w) }
  | .advancePC => { hs with guest := { hs.guest with pc := hs.guest.pc + 4 } }
  | .commitBranch =>
      match hs.guest.branchTarget with
      | some t => { hs with guest := { hs.guest with pc := t, branchTarget := none } }
      | none => hs
  | .addCycles n => { hs with guest := { hs.guest with cycles := hs.guest.cycles + n } }
  | .callInterp i => { hs with guest := interpretOne hs.guest i }

/-- Run a sequence of emitted host operations. -/
def runOps (ops : List HostOp) (hs : HostState) : HostState :=
  ops.foldl execOp hs

/-- Guest register currently cached in the given host register, with its
dirty bit. -/
def findCachedGuest (cs : RegisterCache) (h : HReg) : Option (Reg × Bool) :=
  (List.finRange 32).findSome? fun r =>
    match cs.regState r with
    | .cached h' d => if h' = h then some (r, d) else none
    | _ => none

/-- Modelled from the spec: `Allocate(preferred?) -> HostReg` of the
register cache.  A free host register is preferred; otherwise the
least-recently-used unpinned cached register is spilled (its dirty value
flushed to the guest-state record by an emitted store) and reused.  The
returned register is not yet bound to any guest register. -/
def Allocate (cs : RegisterCache) : Option (HReg × List HostOp × RegisterCache) :=
  match (List.finRange NHost).find? (fun h => decide (h ∉ cs.lruOrder)) with
  | some h => some (h, [], cs)
  | none =>
    match cs.lruOrder.find? (fun h => decide (h ∉ cs.pinned)) with
    | some victim =>
      match findCachedGuest cs victim with
      | some (r, d) =>
        some (victim,
              if d then [.storeGuestReg r victim] else [],
              { cs with regState := Function.update cs.regState r .inMemory,
                        lruOrder := cs.lruOrder.erase victim })
      | none => none
    | none => none

/-- Bind a guest register to a freshly acquired host register. -/
def setCached (cs : RegisterCache) (r : Reg) (h : HReg) (d : Bool) : RegisterCache :=
  { cs with regState := Function.update cs.regState r (.cached h d),
            lruOrder := cs.lruOrder ++ [h] }

/-- Modelled from the spec: `Bind(guestReg)` for reading — loads a guest
register into a host register if not already cached. -/
def readGuestToHost (cs : RegisterCache) (r : Reg) : Option (HReg × List HostOp × RegisterCache) :=
  match cs.regState r with
  | .cached h _ => some (h, [], touchLRU cs h)
  | _ =>
    match Allocate cs with
    | some (h, ops, cs') => some (h, ops ++ [.loadGuestReg h r], setCached cs' r h false)
    | none => none

/-- Acquire a host register to receive a guest register's new value (no
load is emitted: the old value is dead).  The binding is marked dirty. -/
def allocForWrite (cs : RegisterCache) (r : Reg) : Option (HReg × List HostOp × RegisterCache) :=
  match cs.regState r with
  | .cached h _ =>
      some (h, [], { cs with regState := Function.update cs.regState r (.cached h true),
                             lruOrder := cs.lruOrder.erase h ++ [h] })
  | _ =>
    match Allocate cs with
    | some (h, ops, cs') => some (h, ops, setCached cs' r h true)
    | none => none

/-- Stores writing back the dirty cached guest registers among `l`. -/
def storeOpsFor (cs : RegisterCache) (l : List Reg) : List HostOp :=
  l.filterMap fun r =>
    match cs.regState r with
    | .cached h true => some (.storeGuestReg r h)
    | _ => none

/-- Stores emitted by `FlushAll`: one per dirty cached guest register. -/
def flushOps (cs : RegisterCache) : List HostOp :=
  storeOpsFor cs (List.finRange 32)

/-- Post-flush state of one guest register: cached becomes in-memory. -/
def flushedState : GuestRegState → GuestRegState
  | .cached _ _ => .inMemory
  | s => s

/-- Modelled from the spec: `FlushAll()` writes every dirty cached register
back to the guest-state record and drops all cached bindings, so the record
becomes authoritative for every guest register. -/
def FlushAll (cs : RegisterCache) : List HostOp × RegisterCache :=
  (flushOps cs,
   { cs with regState := fun r => flushedState (cs.regState r), lruOrder := [] })

/-- Host operations closing every instruction's emission: advance the
program counter, perform the runtime conditional branch commit of the
delay-slot state machine, and account one cycle. -/
def instrTail : List HostOp := [.advancePC, .commitBranch, .addCycles 1]

/-- Modelled from the spec: shared emission shape of the dedicated ALU
handlers — read the source guest register into a host register (pinning it
across the destination allocation), acquire a destination register, and
emit the operation.  Destination register 0 is hardwired: nothing is
emitted beyond the instruction tail. -/
def compileALUInstr (cs : RegisterCache) (rd rs : Reg) (u : Uop) :
    Option (List HostOp × RegisterCache) :=
  if rd = 0 then some (instrTail, cs) else
  match readGuestToHost cs rs with
  | some (h1, ops1, cs1) =>
    match allocForWrite (pinReg cs1 h1) rd with
    | some (h2, ops2, cs2) =>
      some (ops1 ++ ops2 ++ [.copyReg h2 h1, .applyUop h2 u] ++ instrTail,
            unpinReg cs2 h1)
    | none => none
  | none => none

/-- Modelled from the spec: dedicated handler `Compile_lui`. -/
def Compile_lui (cs : RegisterCache) (rt : Reg) (imm : Nat) :
    Option (List HostOp × RegisterCache) :=
  if rt = 0 then some (instrTail, cs) else
  match allocForWrite cs rt with
  | some (h, ops, cs') => some (ops ++ [.loadConst h (luiConst imm)] ++ instrTail, cs')
  | none => none

/-- Modelled from the spec: dedicated handler `Compile_ori`. -/
def Compile_ori (cs : RegisterCache) (rt rs : Reg) (imm : Nat) :
    Option (List HostOp × RegisterCache) :=
  compileALUInstr cs rt rs (.orImm (imm % 65536))

/-- Modelled from the spec: dedicated handler `Compile_sll`. -/
def Compile_sll (cs : RegisterCache) (rd rt : Reg) (shamt : Nat) :
    Option (List HostOp × RegisterCache) :=
  compileALUInstr cs rd rt (.shlImm (shamt % 32))

/-- Modelled from the spec: dedicated handler `Compile_srl`. -/
def Compile_srl (cs : RegisterCache) (rd rt : Reg) (shamt : Nat) :
    Option (List HostOp × RegisterCache) :=
  compileALUInstr cs rd rt (.shrImm (shamt % 32))

/-- Modelled from the spec: dedicated handler `Compile_addiu`. -/
def Compile_addiu (cs : RegisterCache) (rt rs : Reg) (imm : Nat) :
    Option (List HostOp × RegisterCache) :=
  compileALUInstr cs rt rs (.addImm (signExt16 imm))

/-- Modelled from the spec: `Compile_Fallback` — flush the register cache
so the guest-state record is coherent, then emit a call into the
interpreter's semantics for this single opcode. -/
def Compile_Fallback (cs : RegisterCache) (i : Instr) :
    Option (List HostOp × RegisterCache) :=
  let p := FlushAll cs
  some (p.1 ++ [.callInterp i], p.2)

/-- Whether a dedicated opcode handler exists (the handlers declared in the
source header: `lui`, `ori`, `sll`, `srl`, `addiu`). -/
def hasDedicated : Instr → Bool
  | .lui _ _ => true
  | .ori _ _ _ => true
  | .sll _ _ _ => true
  | .srl _ _ _ => true
  | .addiu _ _ _ => true
  | _ => false

/-- Whether the interpreter fallback is available for the opcode. -/
def hasFallback : Instr → Bool
  | .invalid => false
  | _ => true

/-- Modelled from the spec: `CompileInstruction` — dispatch to a handler
specific to the opcode; if none exists, emit a call into the interpreter's
semantics for that single opcode; fail only when neither exists. -/
def CompileInstruction (cs : RegisterCache) : Instr → Option (List HostOp × RegisterCache)
  | .lui rt imm => Compile_lui cs rt imm
  | .ori rt rs imm => Compile_ori cs rt rs imm
  | .sll rd rt shamt => Compile_sll cs rd rt shamt
  | .srl rd rt shamt => Compile_srl cs rd rt shamt
  | .addiu rt rs imm => Compile_addiu cs rt rs imm
  | .beq rs rt target => Compile_Fallback cs (.beq rs rt target)
  | .invalid => none

/-- Modelled from the spec: per-instruction compilation loop followed by
the block epilogue, which flushes every cached guest register.  Returns the
emitted host code and the final register-cache state. -/
def CompileBlockAux (cs : RegisterCache) : List Instr → Option (List HostOp × RegisterCache)
  | [] => some (FlushAll cs)
  | i :: rest =>
    match CompileInstruction cs i with
    | some (ops, cs1) =>
      match CompileBlockAux cs1 rest with
      | some (ops2, cs2) => some (ops ++ ops2, cs2)
      | none => none
    | none => none

/-- Modelled from the spec: `CompileBlock` — the register cache resets at
block entry; on success the emitted host code for the whole block is
returned, on failure nothing is published. -/
def CompileBlock (block : List Instr) : Option (List HostOp) :=
  (CompileBlockAux initialCache block).map Prod.fst

/-- Operand bit-widths carried by a `Value` (source: `RegSize`). -/
inductive RegSize where
  | size8
  | size16
  | size32
  | size64
deriving DecidableEq

/-- Bit count of a `RegSize`. -/
def RegSize.bits : RegSize → Nat
  | .size8 => 8
  | .size16 => 16
  | .size32 => 32
  | .size64 => 64

/-- Modelled from the spec: a tagged operand — compile-time constant, host
register, or guest register resident in the state record — carrying an
explicit bit-width. -/
inductive Value where
  | constant (size : RegSize) (v : Nat)
  | hostReg (size : RegSize) (h : HReg)
  | guestReg (size : RegSize) (r : Reg)
deriving DecidableEq

/-- Width of a `Value`. -/
def Value.size : Value → RegSize
  | .constant s _ => s
  | .hostReg s _ => s
  | .guestReg s _ => s

/-- Materialize a `Value` into a specific host register. -/
def materializeValue (v : Value) (h : HReg) : List HostOp :=
  match v with
  | .constant _ c => [.loadConst h c]
  | .hostReg _ h' => [.copyReg h h']
  | .guestReg _ r => [.loadGuestReg h r]

/-- Modelled from the spec: shared shape of the `Value` combinators — if
both operands are compile-time constants, fold arithmetically modulo the
operand width and emit no instruction; otherwise materialize both operands
into host registers and emit the corresponding host instruction. -/
def binaryValueOp (b : Binop) (fold : Nat → Nat → Nat) (lhs rhs : Value) :
    Value × List HostOp :=
  match lhs, rhs with
  | .constant s a, .constant _ c => (.constant s (fold a c % 2 ^ s.bits), [])
  | _, _ =>
    (.hostReg lhs.size ⟨0, by decide⟩,
     materializeValue lhs ⟨0, by decide⟩ ++ materializeValue rhs ⟨1, by decide⟩ ++
       [.applyBinop ⟨0, by decide⟩ ⟨1, by decide⟩ b lhs.size.bits])

/-- Modelled from the spec: `AddValues`. -/
def AddValues (lhs rhs : Value) : Value × List HostOp :=
  binaryValueOp .add (· + ·) lhs rhs

/-- Modelled from the spec: `MulValues`. -/
def MulValues (lhs rhs : Value) : Value × List HostOp :=
  binaryValueOp .mul (· * ·) lhs rhs

/-- Modelled from the spec: `ShlValues`. -/
def ShlValues (lhs rhs : Value) : Value × List HostOp :=
  binaryValueOp .shl (· <<< ·) lhs rhs

/-- Modelled from the spec: `ShrValues`. -/
def ShrValues (lhs rhs : Value) : Value × List HostOp :=
  binaryValueOp .shr (· >>> ·) lhs rhs

/-- Modelled from the spec: `OrValues`. -/
def OrValues (lhs rhs : Value) : Value × List HostOp :=
  binaryValueOp .or (· ||| ·) lhs rhs

/-- The two native calling conventions selected at target-selection time
(source: the `ABI_SYSV` / `ABI_WIN64` preprocessor selection). -/
inductive ABI where
  | sysv
  | win64
deriving DecidableEq

/-- Modelled from the spec: the ABI's argument-register list (register ids
of the physical host registers used for the first arguments). -/
def argRegisters : ABI → List Nat
  | .sysv => [7, 6, 2, 1, 8, 9]
  | .win64 => [1, 2, 8, 9]

/-- Modelled from the spec: convention-specific extra reserved stack space
before a call — shadow space under Win64, none under SysV. -/
def shadowSpace : ABI → Nat
  | .sysv => 0
  | .win64 => 32

/-- Assign call arguments to argument registers, overflowing to stack
slots beyond the ABI's register count. -/
def assignArgs (abi : ABI) (args : List Nat) : List (Nat × Nat) × List Nat :=
  ((argRegisters abi).zip args |>.map fun p => (p.1, p.2),
   args.drop (argRegisters abi).length)

/-- Modelled from the spec: `PrepareStackForCall` — realign the stack depth
to the 16-byte boundary mandated at the call site and reserve the
convention-specific shadow space; returns the total adjustment. -/
def PrepareStackForCall (abi : ABI) (sp : Nat) : Nat :=
  (16 - sp % 16) % 16 + shadowSpace abi

/-- Modelled from the spec: `RestoreStackAfterCall` — the matching teardown
removing exactly the adjustment made before the call. -/
def RestoreStackAfterCall (sp adjust : Nat) : Nat :=
  sp - adjust

/-- Abstract operations of an emitted helper call sequence. -/
inductive CallOp where
  | adjustStackDown (n : Nat)
  | setArgReg (reg v : Nat)
  | pushStackArg (v : Nat)
  | callPtr
  | adjustStackUp (n : Nat)
deriving DecidableEq

/-- Modelled from the spec: `EmitFunctionCallPtr` — prepare the stack,
place the arguments per the active ABI's argument-register list (stack
slots beyond the register count), perform the call, and tear the stack
back down. -/
def EmitFunctionCallPtr (abi : ABI) (sp : Nat) (args : List Nat) : List CallOp :=
  let adjust := PrepareStackForCall abi sp
  let a := assignArgs abi args
  [.adjustStackDown adjust] ++ a.1.map (fun p => .setArgReg p.1 p.2) ++
    a.2.map .pushStackArg ++ [.callPtr, .adjustStackUp adjust]

/-- Modelled from the spec: the executable code buffer — a monotonic write
cursor plus the configured alignment. -/
structure JitCodeBuffer where
  cursor : Nat
  alignment : Nat
deriving DecidableEq

/-- Advance a cursor to the next multiple of the alignment. -/
def alignUp (c a : Nat) : Nat :=
  if a = 0 then c else c + (a - c % a) % a

/-- Modelled from the spec: `AlignCodeBuffer` — advance the write cursor to
the configured alignment boundary for the next block. -/
def AlignCodeBuffer (b : JitCodeBuffer) : JitCodeBuffer :=
  { b with cursor := alignUp b.cursor b.alignment }

/-- Modelled from the spec: compiling one block against the code buffer —
on success the entry point (current cursor) and byte length are published
and the cursor advances past the code and is re-aligned; on failure no
entry point is published and the buffer is left untouched. -/
def compileAndPublish (buf : JitCodeBuffer) (block : List Instr) :
    Option (Nat × Nat) × JitCodeBuffer :=
  match CompileBlock block with
  | none => (none, buf)
  | some ops =>
    (some (buf.cursor, ops.length), AlignCodeBuffer { buf with cursor := buf.cursor + ops.length })

/-- Sequential compilation of several blocks against one code buffer,
collecting the published entry points. -/
def compileSeq (buf : JitCodeBuffer) : List (List Instr) → List (Nat × Nat) × JitCodeBuffer
  | [] => ([], buf)
  | b :: rest =>
    match compileAndPublish buf b with
    | (none, buf') => compileSeq buf' rest
    | (some e, buf') =>
      let p := compileSeq buf' rest
      (e :: p.1, p.2)

/-- Well-formedness of a register-cache state: cached bindings are
injective, the recency list holds exactly the in-use host registers without
duplicates, and the hardwired register 0 is never dirty. -/
structure WF (cs : RegisterCache) : Prop where
  inj : ∀ r₁ r₂ h d₁ d₂, cs.regState r₁ = .cached h d₁ → cs.regState r₂ = .cached h d₂ → r₁ = r₂
  cachedInLru : ∀ r h d, cs.regState r = .cached h d → h ∈ cs.lruOrder
  lruCached : ∀ h, h ∈ cs.lruOrder → ∃ r d, cs.regState r = .cached h d
  nodup : cs.lruOrder.Nodup
  r0clean : ∀ h, cs.regState 0 ≠ .cached h true

/-- Simulation relation between a compile-time cache state, the runtime
host-machine state, and the abstract guest state of the interpreter: a
cached guest register lives in its host register; unless dirty-cached, the
guest-state record is authoritative; control state agrees exactly. -/
structure Inv (cs : RegisterCache) (hs : HostState) (g : GuestState) : Prop where
  cachedVal : ∀ r h d, cs.regState r = .cached h d → hs.hostRegs h = readReg g.regs r
  memVal : ∀ r, (∀ h, cs.regState r ≠ .cached h true) → readReg hs.guest.regs r = readReg g.regs r
  r0Eq : hs.guest.regs 0 = g.regs 0
  pcEq : hs.guest.pc = g.pc
  btEq : hs.guest.branchTarget = g.branchTarget
  cycEq : hs.guest.cycles = g.cycles

/-- Abstract effect of one dedicated ALU instruction on the guest state:
write the destination, retire a pending branch, account one cycle. -/
def aluStep (g : GuestState) (rd rs : Reg) (u : Uop) : GuestState :=
  { regs := writeReg g.regs rd (evalUop u (readReg g.regs rs))
    pc := match g.branchTarget with
          | some t => t
          | none => g.pc + 4
    branchTarget := none
    cycles := g.cycles + 1 }

/-- Concrete register-cache state exercising the spill path: all four host
registers in use, two pinned, the least-recently-used unpinned host
register holding a dirty guest register. -/
def demoCache : RegisterCache where
  regState := fun r =>
    if r = 1 then .cached 0 true
    else if r = 2 then .cached 1 false
    else if r = 3 then .cached 2 true
    else if r = 4 then .cached 3 false
    else .unallocated
  lruOrder := [0, 1, 2, 3]
  pinned := [0, 1]

/-- Concrete guest state used to instantiate universally quantified
theorems at a specific input. -/
def demoGuest : GuestState where
  regs := fun r => r.val * 10 + 1
  pc := 4096
  branchTarget := none
  cycles := 7

/-- Concrete mixed block: dedicated handlers plus a fallback-routed branch
with a delay-slot instruction. -/
def demoBlock : List Instr :=
  [.ori 1 0 5, .addiu 2 1 7, .beq 2 3 2048, .sll 4 2 3, .lui 5 65535]

end CPU.Recompiler

namespace GPU_HW

/-- Transparency modes of the GPU (from `gpu.h`, referenced by
`gpu_hw.h`). -/
inductive TransparencyMode where
  | HalfBackgroundPlusHalfForeground
  | BackgroundPlusForeground
  | BackgroundMinusForeground
  | BackgroundPlusQuarterForeground
  | Disabled
deriving DecidableEq

/-- Texture modes of the GPU (from `gpu.h`, referenced by `gpu_hw.h`). -/
inductive TextureMode where
  | Palette4Bit
  | Palette8Bit
  | Direct16Bit
  | Disabled
deriving DecidableEq

/-- Batch primitive topologies (`gpu_hw.h`). -/
inductive BatchPrimitive where
  | Lines
  | LineStrip
  | Triangles
  | TriangleStrip
deriving DecidableEq

/-- Render modes of a batch (`gpu_hw.h`). -/
inductive BatchRenderMode where
  | TransparencyDisabled
  | TransparentAndOpaque
  | OnlyOpaque
  | OnlyTransparent
deriving DecidableEq

/-- Batch configuration (`gpu_hw.h`). -/
structure BatchConfig where
  primitive : BatchPrimitive
  texture_mode : TextureMode
  transparency_mode : TransparencyMode
  dithering : Bool
deriving DecidableEq

/-- `BatchConfig::NeedsTwoPassRendering` (`gpu_hw.h` lines 75-79). -/
def BatchConfig.NeedsTwoPassRendering (c : BatchConfig) : Bool :=
  c.transparency_mode = TransparencyMode.BackgroundMinusForeground &&
    c.texture_mode != TextureMode.Disabled

/-- `BatchConfig::GetRenderMode` (`gpu_hw.h` lines 82-86). -/
def BatchConfig.GetRenderMode (c : BatchConfig) : BatchRenderMode :=
  if c.transparency_mode = TransparencyMode.Disabled then
    BatchRenderMode.TransparencyDisabled
  else
    BatchRenderMode.TransparentAndOpaque

end GPU_HW

namespace CPU.Recompiler

lemma runOps_append (a b : List HostOp) (hs : HostState) :
    runOps (a ++ b) hs = runOps b (runOps a hs) :=
  List.foldl_append execOp hs a b

lemma runOps_nil (hs : HostState) : runOps [] hs = hs := rfl

lemma runOps_cons (op : HostOp) (ops : List HostOp) (hs : HostState) :
    runOps (op :: ops) hs = runOps ops (execOp hs op) := rfl

/-- Aligning up never moves the cursor backward and lands on a multiple of
the alignment. -/
lemma alignUp_spec (c a : Nat) (h : 0 < a) :
    c ≤ alignUp c a ∧ alignUp c a % a = 0 := by
  have ha : ¬ a = 0 := Nat.pos_iff_ne_zero.mp h
  unfold alignUp
  rw [if_neg ha]
  refine ⟨Nat.le_add_right _ _, ?_⟩
  rcases Nat.eq_zero_or_pos (c % a) with h0 | hpos
  · rw [h0, Nat.sub_zero, Nat.mod_self, Nat.add_zero, h0]
  · have hlt : c % a < a := Nat.mod_lt c h
    have hlt2 : a - c % a < a := by omega
    rw [Nat.mod_eq_of_lt hlt2]
    have hdm := Nat.div_add_mod c a
    have h2 : c + (a - c % a) = a * (c / a + 1) := by
      rw [Nat.mul_add, Nat.mul_one]
      omega
    rw [h2]
    exact Nat.mul_mod_right a _

/-- C9: the alignment operation on the code buffer never moves the write
cursor backward and always leaves it at the configured alignment
boundary. -/
theorem align_code_buffer_monotone (b : JitCodeBuffer) (h : 0 < b.alignment) :
    b.cursor ≤ (AlignCodeBuffer b).cursor ∧
    (AlignCodeBuffer b).cursor % b.alignment = 0 :=
  alignUp_spec b.cursor b.alignment h

/-- Witness for `align_code_buffer_monotone` at a concrete buffer state. -/
theorem align_code_buffer_monotone_witness :
    (37 : Nat) ≤ (AlignCodeBuffer ⟨37, 16⟩).cursor ∧
    (AlignCodeBuffer ⟨37, 16⟩).cursor % 16 = 0 :=
  align_code_buffer_monotone ⟨37, 16⟩ (by decide)

/-- C3: on two compile-time-constant operands every `Value` combinator
folds to a constant equal to the operation's result reduced modulo two to
the operand width, emitting zero host instructions. -/
theorem value_combinators_fold_constants (s : RegSize) (a b : Nat) :
    AddValues (.constant s a) (.constant s b) = (.constant s ((a + b) % 2 ^ s.bits), []) ∧
    MulValues (.constant s a) (.constant s b) = (.constant s ((a * b) % 2 ^ s.bits), []) ∧
    ShlValues (.constant s a) (.constant s b) = (.constant s ((a <<< b) % 2 ^ s.bits), []) ∧
    ShrValues (.constant s a) (.constant s b) = (.constant s ((a >>> b) % 2 ^ s.bits), []) ∧
    OrValues (.constant s a) (.constant s b) = (.constant s ((a ||| b) % 2 ^ s.bits), []) :=
  ⟨rfl, rfl, rfl, rfl, rfl⟩

/-- C8: a four-argument helper call places all four arguments in argument
registers with zero stack arguments under both conventions; the stack is
realigned to a 16-byte boundary at the call site; the shadow-space
convention reserves 32 additional bytes; the teardown restores the stack;
and any call of at most four arguments needs no stack slots. -/
theorem helper_call_abi (a1 a2 a3 a4 sp : Nat) :
    assignArgs .sysv [a1, a2, a3, a4] = ([(7, a1), (6, a2), (2, a3), (1, a4)], []) ∧
    assignArgs .win64 [a1, a2, a3, a4] = ([(1, a1), (2, a2), (8, a3), (9, a4)], []) ∧
    (sp + PrepareStackForCall .sysv sp) % 16 = 0 ∧
    (sp + PrepareStackForCall .win64 sp) % 16 = 0 ∧
    PrepareStackForCall .win64 sp = PrepareStackForCall .sysv sp + 32 ∧
    (∀ abi, RestoreStackAfterCall (sp + PrepareStackForCall abi sp) (PrepareStackForCall abi sp) = sp) ∧
    (∀ abi (args : List Nat), args.length ≤ 4 →
       (assignArgs abi args).2 = [] ∧ (assignArgs abi args).1.length = args.length) ∧
    EmitFunctionCallPtr .sysv sp [a1, a2, a3, a4] =
      [.adjustStackDown (PrepareStackForCall .sysv sp), .setArgReg 7 a1, .setArgReg 6 a2,
       .setArgReg 2 a3, .setArgReg 1 a4, .callPtr, .adjustStackUp (PrepareStackForCall .sysv sp)] ∧
    EmitFunctionCallPtr .win64 sp [a1, a2, a3, a4] =
      [.adjustStackDown (PrepareStackForCall .win64 sp), .setArgReg 1 a1, .setArgReg 2 a2,
       .setArgReg 8 a3, .setArgReg 9 a4, .callPtr, .adjustStackUp (PrepareStackForCall .win64 sp)] := by
  have h16 : (0 : Nat) < 16 := by decide
  have halign := (alignUp_spec sp 16 h16).2
  have hval : alignUp sp 16 = sp + (16 - sp % 16) % 16 := by
    unfold alignUp
    rw [if_neg (by decide)]
  refine ⟨rfl, rfl, ?_, ?_, rfl, ?_, ?_, rfl, rfl⟩
  · show (sp + ((16 - sp % 16) % 16 + 0)) % 16 = 0
    rw [Nat.add_zero, ← hval]
    exact halign
  · show (sp + ((16 - sp % 16) % 16 + 32)) % 16 = 0
    rw [← Nat.add_assoc, ← hval]
    omega
  · intro abi
    show sp + PrepareStackForCall abi sp - PrepareStackForCall abi sp = sp
    omega
  · intro abi args hlen
    have hreg : args.length ≤ (argRegisters abi).length := by
      cases abi <;> simp [argRegisters] <;> omega
    constructor
    · exact List.drop_eq_nil_of_le hreg
    · show (((argRegisters abi).zip args).map _).length = args.length
      rw [List.length_map, List.length_zip]
      omega

/-- C7: a failed block compilation publishes no entry point, leaves the
code buffer cursor untouched, and the compilation of all subsequent blocks
proceeds exactly as if the failed block had never been attempted. -/
theorem compile_failure_atomic (buf : JitCodeBuffer) (block : List Instr)
    (h : CompileBlock block = none) :
    compileAndPublish buf block = (none, buf) ∧
    ∀ rest, compileSeq buf (block :: rest) = compileSeq buf rest := by
  have hp : compileAndPublish buf block = (none, buf) := by
    unfold compileAndPublish
    rw [h]
  refine ⟨hp, fun rest => ?_⟩
  show (match compileAndPublish buf block with
        | (none, buf') => compileSeq buf' rest
        | (some e, buf') =>
          let p := compileSeq buf' rest
          (e :: p.1, p.2)) = compileSeq buf rest
  rw [hp]

/-- Witness for `compile_failure_atomic`: the single-instruction block with
neither a dedicated handler nor a fallback. -/
theorem compile_failure_atomic_witness :
    compileAndPublish ⟨0, 16⟩ [.invalid] = (none, ⟨0, 16⟩) ∧
    ∀ rest, compileSeq ⟨0, 16⟩ ([.invalid] :: rest) = compileSeq ⟨0, 16⟩ rest :=
  compile_failure_atomic ⟨0, 16⟩ [.invalid] rfl

end CPU.Recompiler

namespace GPU_HW

/-- C10: `GetRenderMode` returns only two of the four render modes:
`TransparencyDisabled` exactly when transparency is disabled and
`TransparentAndOpaque` otherwise, never `OnlyOpaque` or `OnlyTransparent`;
in particular every batch needing two-pass rendering gets
`TransparentAndOpaque`. -/
theorem batch_render_mode_two_of_four (c : BatchConfig) :
    (c.GetRenderMode = .TransparencyDisabled ↔ c.transparency_mode = .Disabled) ∧
    (c.transparency_mode ≠ .Disabled → c.GetRenderMode = .TransparentAndOpaque) ∧
    c.GetRenderMode ≠ .OnlyOpaque ∧
    c.GetRenderMode ≠ .OnlyTransparent ∧
    (c.NeedsTwoPassRendering = true → c.GetRenderMode = .TransparentAndOpaque) := by
  obtain ⟨p, tm, tr, di⟩ := c
  cases tr <;>
    simp [BatchConfig.GetRenderMode, BatchConfig.NeedsTwoPassRendering]

end GPU_HW

namespace CPU.Recompiler

lemma findCachedGuest_sound (cs : RegisterCache) (h : HReg) (r : Reg) (d : Bool)
    (hfg : findCachedGuest cs h = some (r, d)) : cs.regState r = .cached h d := by
  unfold findCachedGuest at hfg
  rw [List.findSome?_eq_some_iff] at hfg
  obtain ⟨l₁, x, l₂, hsplit, hfx, hbef⟩ := hfg
  revert hfx
  cases hx : cs.regState x with
  | cached h' d' =>
    intro hfx
    by_cases heq : h' = h
    · subst heq
      simp at hfx
      obtain ⟨hxr, hdd⟩ := hfx
      subst hxr
      subst hdd
      exact hx
    · simp [heq] at hfx
  | unallocated => intro hfx; simp at hfx
  | inMemory => intro hfx; simp at hfx

lemma findCachedGuest_isSome (cs : RegisterCache) (h : HReg) (r : Reg) (d : Bool)
    (hc : cs.regState r = .cached h d) : (findCachedGuest cs h).isSome := by
  by_contra hns
  have hnone := Option.not_isSome_iff_eq_none.mp hns
  unfold findCachedGuest at hnone
  rw [List.findSome?_eq_none_iff] at hnone
  have := hnone r (List.mem_finRange r)
  rw [hc] at this
  simp at this

lemma WF_initialCache : WF initialCache := by
  constructor
  · intro r₁ r₂ h d₁ d₂ h₁ h₂
    simp [initialCache] at h₁
  · intro r h d hc
    simp [initialCache] at hc
  · intro h hm
    simp [initialCache] at hm
  · simp [initialCache]
  · intro h hc
    simp [initialCache] at hc

lemma Allocate_eq_free (cs : RegisterCache) (h : HReg)
    (hfind : (List.finRange NHost).find? (fun h => decide (h ∉ cs.lruOrder)) = some h) :
    Allocate cs = some (h, [], cs) := by
  simp only [Allocate, hfind]

lemma Allocate_eq_spill (cs : RegisterCache) (victim : HReg) (r : Reg) (d : Bool)
    (hfind : (List.finRange NHost).find? (fun h => decide (h ∉ cs.lruOrder)) = none)
    (hvict : cs.lruOrder.find? (fun h => decide (h ∉ cs.pinned)) = some victim)
    (hfg : findCachedGuest cs victim = some (r, d)) :
    Allocate cs = some (victim, (if d then [.storeGuestReg r victim] else []),
      ⟨Function.update cs.regState r .inMemory, cs.lruOrder.erase victim, cs.pinned⟩) := by
  simp only [Allocate, hfind, hvict, hfg]

lemma Allocate_eq_none (cs : RegisterCache)
    (hfind : (List.finRange NHost).find? (fun h => decide (h ∉ cs.lruOrder)) = none)
    (hvict : cs.lruOrder.find? (fun h => decide (h ∉ cs.pinned)) = none) :
    Allocate cs = none := by
  simp only [Allocate, hfind, hvict]

lemma Allocate_eq_none' (cs : RegisterCache) (victim : HReg)
    (hfind : (List.finRange NHost).find? (fun h => decide (h ∉ cs.lruOrder)) = none)
    (hvict : cs.lruOrder.find? (fun h => decide (h ∉ cs.pinned)) = some victim)
    (hfg : findCachedGuest cs victim = none) :
    Allocate cs = none := by
  simp only [Allocate, hfind, hvict, hfg]

/-- Full specification of `Allocate` on a well-formed cache: the returned
host register is unbound and off the recency list; other bindings survive;
the only emitted operations are spill stores, which preserve all host
register contents and the simulation relation. -/
lemma Allocate_spec (cs : RegisterCache) (h0 : HReg) (ops : List HostOp)
    (cs' : RegisterCache) (hwf : WF cs) (halloc : Allocate cs = some (h0, ops, cs')) :
    WF cs' ∧
    cs'.pinned = cs.pinned ∧
    (∀ r d, cs'.regState r ≠ .cached h0 d) ∧
    h0 ∉ cs'.lruOrder ∧
    (∀ r h d, cs'.regState r = .cached h d → cs.regState r = .cached h d) ∧
    (∀ r h d, h ≠ h0 → cs.regState r = .cached h d → cs'.regState r = .cached h d) ∧
    (∀ r h d, h ∈ cs.pinned → cs.regState r = .cached h d → cs'.regState r = .cached h d) ∧
    (∀ hs, (runOps ops hs).hostRegs = hs.hostRegs) ∧
    (∀ hs g, Inv cs hs g → Inv cs' (runOps ops hs) g) := by
  cases hfind : (List.finRange NHost).find? (fun h => decide (h ∉ cs.lruOrder)) with
  | some hfree =>
    rw [Allocate_eq_free cs hfree hfind] at halloc
    simp only [Option.some.injEq, Prod.mk.injEq] at halloc
    obtain ⟨hh, hops, hcs⟩ := halloc
    have hh' := hh.symm
    subst hh'
    subst hops
    subst hcs
    have hfresh : h0 ∉ cs.lruOrder := by simpa using List.find?_some hfind
    have hnc : ∀ r d, cs.regState r ≠ .cached h0 d := by
      intro r d hc
      exact hfresh (hwf.cachedInLru r h0 d hc)
    exact ⟨hwf, rfl, hnc, hfresh, fun r h d hc => hc, fun r h d _ hc => hc,
           fun r h d _ hc => hc, fun hs => rfl, fun hs g hinv => hinv⟩
  | none =>
    cases hvict : cs.lruOrder.find? (fun h => decide (h ∉ cs.pinned)) with
    | none =>
      rw [Allocate_eq_none cs hfind hvict] at halloc
      exact absurd halloc (by simp)
    | some victim =>
      cases hfg : findCachedGuest cs victim with
      | none =>
        rw [Allocate_eq_none' cs victim hfind hvict hfg] at halloc
        exact absurd halloc (by simp)
      | some rd =>
        obtain ⟨r, d⟩ := rd
        rw [Allocate_eq_spill cs victim r d hfind hvict hfg] at halloc
        simp only [Option.some.injEq, Prod.mk.injEq] at halloc
        obtain ⟨hh, hops, hcs⟩ := halloc
        have hh' := hh.symm
        subst hh'
        subst hops
        subst hcs
        have hrv : cs.regState r = .cached h0 d := findCachedGuest_sound cs h0 r d hfg
        have hr0 : d = true → r ≠ 0 := by
          intro hd hr
          subst hr
          subst hd
          exact hwf.r0clean h0 hrv
        have hstate : ∀ r', r' ≠ r →
            Function.update cs.regState r GuestRegState.inMemory r' = cs.regState r' := by
          intro r' hne
          exact Function.update_noteq hne _ _
        have hstr : Function.update cs.regState r GuestRegState.inMemory r = .inMemory :=
          Function.update_same r _ cs.regState
        have hnotc : ∀ r' h d', Function.update cs.regState r GuestRegState.inMemory r' = .cached h d' →
            r' ≠ r ∧ cs.regState r' = .cached h d' ∧ h ≠ h0 := by
          intro r' h d' hc
          have hne : r' ≠ r := by
            intro heq
            subst heq
            rw [hstr] at hc
            exact absurd hc (by simp)
          rw [hstate r' hne] at hc
          refine ⟨hne, hc, ?_⟩
          intro heq
          rw [heq] at hc
          exact hne (hwf.inj r' r h0 d' d hc hrv)
        have hvnp : h0 ∉ cs.pinned := by simpa using List.find?_some hvict
        refine ⟨?_, rfl, ?_, ?_, ?_, ?_, ?_, ?_, ?_⟩
        · constructor
          · intro r₁ r₂ h d₁ d₂ h₁ h₂
            obtain ⟨_, hc₁, _⟩ := hnotc r₁ h d₁ h₁
            obtain ⟨_, hc₂, _⟩ := hnotc r₂ h d₂ h₂
            exact hwf.inj r₁ r₂ h d₁ d₂ hc₁ hc₂
          · intro r' h d hc
            obtain ⟨_, hc', hneh⟩ := hnotc r' h d hc
            exact (List.mem_erase_of_ne hneh).mpr (hwf.cachedInLru r' h d hc')
          · intro h hm
            obtain ⟨hneh, hml⟩ := (hwf.nodup.mem_erase_iff).mp hm
            obtain ⟨r', d', hc'⟩ := hwf.lruCached h hml
            have hner : r' ≠ r := by
              intro heq
              subst heq
              rw [hrv] at hc'
              injection hc' with he _
              exact hneh he.symm
            exact ⟨r', d', by rw [show ({ regState := Function.update cs.regState r GuestRegState.inMemory, lruOrder := cs.lruOrder.erase h0, pinned := cs.pinned } : RegisterCache).regState r' = Function.update cs.regState r GuestRegState.inMemory r' from rfl, hstate r' hner]; exact hc'⟩
          · exact hwf.nodup.erase h0
          · intro h hc
            by_cases hz : (0 : Reg) = r
            · rw [show ({ regState := Function.update cs.regState r GuestRegState.inMemory, lruOrder := cs.lruOrder.erase h0, pinned := cs.pinned } : RegisterCache).regState 0 = Function.update cs.regState r GuestRegState.inMemory 0 from rfl, hz, hstr] at hc
              exact absurd hc (by simp)
            · rw [show ({ regState := Function.update cs.regState r GuestRegState.inMemory, lruOrder := cs.lruOrder.erase h0, pinned := cs.pinned } : RegisterCache).regState 0 = Function.update cs.regState r GuestRegState.inMemory 0 from rfl, hstate 0 hz] at hc
              exact hwf.r0clean h hc
        · intro r' d' hc
          obtain ⟨_, _, hneh⟩ := hnotc r' h0 d' hc
          exact hneh rfl
        · exact hwf.nodup.not_mem_erase
        · intro r' h d' hc
          exact (hnotc r' h d' hc).2.1
        · intro r' h d' hneh hc
          have hner : r' ≠ r := by
            intro heq
            subst heq
            rw [hrv] at hc
            injection hc with he _
            exact hneh he.symm
          show Function.update cs.regState r GuestRegState.inMemory r' = .cached h d'
          rw [hstate r' hner]
          exact hc
        · intro r' h d' hp hc
          have hner : r' ≠ r := by
            intro heq
            subst heq
            rw [hrv] at hc
            injection hc with he _
            rw [← he] at hp
            exact hvnp hp
          show Function.update cs.regState r GuestRegState.inMemory r' = .cached h d'
          rw [hstate r' hner]
          exact hc
        · intro hs
          cases d
          · rfl
          · simp [runOps, execOp]
        · intro hs g hinv
          cases d with
          | false =>
            refine ⟨?_, ?_, hinv.r0Eq, hinv.pcEq, hinv.btEq, hinv.cycEq⟩
            · intro r' h d' hc
              exact hinv.cachedVal r' h d' (hnotc r' h d' hc).2.1
            · intro r' hnd
              apply hinv.memVal
              intro h hc
              by_cases hner : r' = r
              · subst hner
                rw [hc] at hrv
                injection hrv with _ hd
                exact absurd hd.symm (by simp)
              · refine hnd h ?_
                show Function.update cs.regState r GuestRegState.inMemory r' = .cached h true
                rw [hstate r' hner]
                exact hc
          | true =>
            have hrne : r ≠ 0 := hr0 rfl
            refine ⟨?_, ?_, ?_, hinv.pcEq, hinv.btEq, hinv.cycEq⟩
            · intro r' h d' hc
              exact hinv.cachedVal r' h d' (hnotc r' h d' hc).2.1
            · intro r' hnd
              by_cases hner : r' = r
              · subst hner
                show readReg (Function.update hs.guest.regs r' (hs.hostRegs h0)) r' = readReg g.regs r'
                unfold readReg
                rw [if_neg hrne, if_neg hrne, Function.update_same]
                have hcv := hinv.cachedVal r' h0 true hrv
                unfold readReg at hcv
                rw [if_neg hrne] at hcv
                exact hcv
              · show readReg (Function.update hs.guest.regs r (hs.hostRegs h0)) r' = readReg g.regs r'
                unfold readReg
                by_cases hz : r' = 0
                · rw [if_pos hz, if_pos hz]
                · rw [if_neg hz, if_neg hz, Function.update_noteq hner]
                  have hmv := hinv.memVal r' (by
                    intro h hc
                    refine hnd h ?_
                    show Function.update cs.regState r GuestRegState.inMemory r' = .cached h true
                    rw [hstate r' hner]
                    exact hc)
                  unfold readReg at hmv
                  rw [if_neg hz, if_neg hz] at hmv
                  exact hmv
            · show Function.update hs.guest.regs r (hs.hostRegs h0) 0 = g.regs 0
              rw [Function.update_noteq (fun hz => hrne hz.symm)]
              exact hinv.r0Eq



lemma Allocate_isSome (cs : RegisterCache) (hwf : WF cs)
    (hp : ∃ h : HReg, h ∉ cs.pinned) : (Allocate cs).isSome := by
  cases hfind : (List.finRange NHost).find? (fun h => decide (h ∉ cs.lruOrder)) with
  | some h =>
    rw [Allocate_eq_free cs h hfind]
    rfl
  | none =>
    have hall : ∀ h : HReg, h ∈ cs.lruOrder := by
      intro h
      have hnp := List.find?_eq_none.mp hfind h (List.mem_finRange h)
      simpa using hnp
    obtain ⟨hu, hup⟩ := hp
    have hvs : (cs.lruOrder.find? (fun h => decide (h ∉ cs.pinned))).isSome :=
      List.find?_isSome.mpr ⟨hu, hall hu, by simpa⟩
    obtain ⟨victim, hvict⟩ := Option.isSome_iff_exists.mp hvs
    obtain ⟨r, d, hc⟩ := hwf.lruCached victim (List.mem_of_find?_eq_some hvict)
    obtain ⟨⟨r2, d2⟩, hfg⟩ :=
      Option.isSome_iff_exists.mp (findCachedGuest_isSome cs victim r d hc)
    rw [Allocate_eq_spill cs victim r2 d2 hfind hvict hfg]
    rfl

lemma WF_touchLRU (cs : RegisterCache) (h : HReg) (hwf : WF cs)
    (hmem : h ∈ cs.lruOrder) : WF (touchLRU cs h) := by
  have hmemiff : ∀ x, x ∈ cs.lruOrder.erase h ++ [h] ↔ x ∈ cs.lruOrder := by
    intro x
    simp only [List.mem_append, List.mem_singleton, hwf.nodup.mem_erase_iff]
    constructor
    · rintro (⟨_, hx⟩ | rfl)
      · exact hx
      · exact hmem
    · intro hx
      by_cases hxe : x = h
      · exact Or.inr hxe
      · exact Or.inl ⟨hxe, hx⟩
  constructor
  · exact hwf.inj
  · intro r h' d hc
    exact (hmemiff h').mpr (hwf.cachedInLru r h' d hc)
  · intro h' hm
    exact hwf.lruCached h' ((hmemiff h').mp hm)
  · have hnd : (cs.lruOrder.erase h).Nodup := hwf.nodup.erase h
    have hne : h ∉ cs.lruOrder.erase h := hwf.nodup.not_mem_erase
    simp [touchLRU, List.nodup_append, hnd, hne]
  · exact hwf.r0clean

lemma WF_setCached (cs : RegisterCache) (r : Reg) (h : HReg) (d : Bool) (hwf : WF cs)
    (hnr : ∀ h' d', cs.regState r ≠ .cached h' d')
    (hnch : ∀ r' d', cs.regState r' ≠ .cached h d')
    (hnl : h ∉ cs.lruOrder)
    (hd0 : d = true → r ≠ 0) : WF (setCached cs r h d) := by
  have hsc : (setCached cs r h d).regState = Function.update cs.regState r (GuestRegState.cached h d) := rfl
  have hsl : (setCached cs r h d).lruOrder = cs.lruOrder ++ [h] := rfl
  have hup : ∀ r', r' ≠ r → Function.update cs.regState r (GuestRegState.cached h d) r' = cs.regState r' :=
    fun r' hne => Function.update_noteq hne _ _
  have hupr : Function.update cs.regState r (GuestRegState.cached h d) r = .cached h d :=
    Function.update_same r _ cs.regState
  constructor
  · intro r₁ r₂ h' d₁ d₂ h₁ h₂
    rw [hsc] at h₁ h₂
    by_cases he₁ : r₁ = r
    · by_cases he₂ : r₂ = r
      · rw [he₁, he₂]
      · rw [he₁, hupr] at h₁
        injection h₁ with hh _
        rw [hup r₂ he₂] at h₂
        rw [← hh] at h₂
        exact absurd h₂ (hnch r₂ d₂)
    · by_cases he₂ : r₂ = r
      · rw [he₂, hupr] at h₂
        injection h₂ with hh _
        rw [hup r₁ he₁] at h₁
        rw [← hh] at h₁
        exact absurd h₁ (hnch r₁ d₁)
      · rw [hup r₁ he₁] at h₁
        rw [hup r₂ he₂] at h₂
        exact hwf.inj r₁ r₂ h' d₁ d₂ h₁ h₂
  · intro r' h' d' hc
    rw [hsc] at hc
    rw [hsl]
    by_cases he : r' = r
    · rw [he, hupr] at hc
      injection hc with hh _
      rw [← hh]
      simp
    · rw [hup r' he] at hc
      exact List.mem_append.mpr (Or.inl (hwf.cachedInLru r' h' d' hc))
  · intro h' hm
    rw [hsl] at hm
    rcases List.mem_append.mp hm with hm | hm
    · obtain ⟨r', d', hc⟩ := hwf.lruCached h' hm
      have hne : r' ≠ r := by
        intro heq
        rw [heq] at hc
        exact hnr h' d' hc
      refine ⟨r', d', ?_⟩
      rw [hsc, hup r' hne]
      exact hc
    · rw [List.mem_singleton] at hm
      refine ⟨r, d, ?_⟩
      rw [hsc, hupr, hm]
  · rw [hsl]
    simp [List.nodup_append, hwf.nodup, hnl]
  · intro h' hc
    rw [hsc] at hc
    by_cases hz : (0 : Reg) = r
    · rw [hz, hupr] at hc
      injection hc with _ hd
      exact hd0 hd hz.symm
    · rw [hup 0 hz] at hc
      exact hwf.r0clean h' hc


lemma readGuestToHost_spec (cs : RegisterCache) (r : Reg) (h1 : HReg)
    (ops : List HostOp) (cs₁ : RegisterCache) (hwf : WF cs)
    (hr : readGuestToHost cs r = some (h1, ops, cs₁)) :
    WF cs₁ ∧ cs₁.pinned = cs.pinned ∧
    (∃ d, cs₁.regState r = .cached h1 d) ∧
    (∀ r' h d, r' ≠ r → cs₁.regState r' = .cached h d → cs.regState r' = .cached h d) ∧
    (∀ hs g, Inv cs hs g → Inv cs₁ (runOps ops hs) g) := by
  unfold readGuestToHost at hr
  cases hrs : cs.regState r with
  | cached h d =>
    rw [hrs] at hr
    simp only [Option.some.injEq, Prod.mk.injEq] at hr
    obtain ⟨hh, hops, hcs⟩ := hr
    have hh' := hh.symm
    subst hh'
    subst hops
    subst hcs
    refine ⟨WF_touchLRU cs h1 hwf (hwf.cachedInLru r h1 d hrs), rfl, ⟨d, hrs⟩,
            fun r' h' d' _ hc => hc, fun hs g hinv => ?_⟩
    exact ⟨hinv.cachedVal, hinv.memVal, hinv.r0Eq, hinv.pcEq, hinv.btEq, hinv.cycEq⟩
  | unallocated =>
    rw [hrs] at hr
    cases halloc : Allocate cs with
    | none => rw [halloc] at hr; exact absurd hr (by simp)
    | some hoc =>
      obtain ⟨h, ops0, cs'⟩ := hoc
      rw [halloc] at hr
      simp only [Option.some.injEq, Prod.mk.injEq] at hr
      obtain ⟨hh, hops, hcs⟩ := hr
      have hh' := hh.symm
      subst hh'
      subst hops
      subst hcs
      obtain ⟨hwf', hpin, hfresh, hflru, hshrink, hpresne, hprespin, hhost, hinvp⟩ :=
        Allocate_spec cs h1 ops0 cs' hwf halloc
      have hnr : ∀ h' d', cs'.regState r ≠ .cached h' d' := by
        intro h' d' hc
        rw [hshrink r h' d' hc] at hrs
        exact absurd hrs (by simp)
      have hwfs := WF_setCached cs' r h1 false hwf' hnr hfresh hflru
        (fun hff => absurd hff (by decide))
      have hscr : (setCached cs' r h1 false).regState =
          Function.update cs'.regState r (GuestRegState.cached h1 false) := rfl
      refine ⟨hwfs, hpin, ⟨false, by rw [hscr]; exact Function.update_same r _ cs'.regState⟩,
              ?_, ?_⟩
      · intro r' h d hne hc
        rw [hscr, Function.update_noteq hne] at hc
        exact hshrink r' h d hc
      · intro hs g hinv
        have hinv' := hinvp hs g hinv
        rw [runOps_append]
        set hs0 := runOps ops0 hs with hhs0
        have hrun : runOps [HostOp.loadGuestReg h1 r] hs0 =
            { hs0 with hostRegs := Function.update hs0.hostRegs h1 (readReg hs0.guest.regs r) } := rfl
        rw [hrun]
        have hmemv : readReg hs0.guest.regs r = readReg g.regs r :=
          hinv'.memVal r (fun h hc => hnr h true hc)
        constructor
        · intro r' h d hc
          rw [hscr] at hc
          by_cases hne : r' = r
          · rw [hne, Function.update_same] at hc
            injection hc with hh1 _
            show Function.update hs0.hostRegs h1 (readReg hs0.guest.regs r) h = readReg g.regs r'
            rw [← hh1, Function.update_same, hne, hmemv]
          · rw [Function.update_noteq hne] at hc
            have hne1 : h ≠ h1 := by
              intro heq
              rw [heq] at hc
              exact hfresh r' d hc
            show Function.update hs0.hostRegs h1 (readReg hs0.guest.regs r) h = readReg g.regs r'
            rw [Function.update_noteq hne1]
            exact hinv'.cachedVal r' h d hc
        · intro r' hnd
          refine hinv'.memVal r' ?_
          intro h hc
          by_cases hne : r' = r
          · rw [hne] at hc
            exact hnr h true hc
          · refine hnd h ?_
            rw [hscr, Function.update_noteq hne]
            exact hc
        · exact hinv'.r0Eq
        · exact hinv'.pcEq
        · exact hinv'.btEq
        · exact hinv'.cycEq
  | inMemory =>
    rw [hrs] at hr
    cases halloc : Allocate cs with
    | none => rw [halloc] at hr; exact absurd hr (by simp)
    | some hoc =>
      obtain ⟨h, ops0, cs'⟩ := hoc
      rw [halloc] at hr
      simp only [Option.some.injEq, Prod.mk.injEq] at hr
      obtain ⟨hh, hops, hcs⟩ := hr
      have hh' := hh.symm
      subst hh'
      subst hops
      subst hcs
      obtain ⟨hwf', hpin, hfresh, hflru, hshrink, hpresne, hprespin, hhost, hinvp⟩ :=
        Allocate_spec cs h1 ops0 cs' hwf halloc
      have hnr : ∀ h' d', cs'.regState r ≠ .cached h' d' := by
        intro h' d' hc
        rw [hshrink r h' d' hc] at hrs
        exact absurd hrs (by simp)
      have hwfs := WF_setCached cs' r h1 false hwf' hnr hfresh hflru
        (fun hff => absurd hff (by decide))
      have hscr : (setCached cs' r h1 false).regState =
          Function.update cs'.regState r (GuestRegState.cached h1 false) := rfl
      refine ⟨hwfs, hpin, ⟨false, by rw [hscr]; exact Function.update_same r _ cs'.regState⟩,
              ?_, ?_⟩
      · intro r' h d hne hc
        rw [hscr, Function.update_noteq hne] at hc
        exact hshrink r' h d hc
      · intro hs g hinv
        have hinv' := hinvp hs g hinv
        rw [runOps_append]
        set hs0 := runOps ops0 hs with hhs0
        have hrun : runOps [HostOp.loadGuestReg h1 r] hs0 =
            { hs0 with hostRegs := Function.update hs0.hostRegs h1 (readReg hs0.guest.regs r) } := rfl
        rw [hrun]
        have hmemv : readReg hs0.guest.regs r = readReg g.regs r :=
          hinv'.memVal r (fun h hc => hnr h true hc)
        constructor
        · intro r' h d hc
          rw [hscr] at hc
          by_cases hne : r' = r
          · rw [hne, Function.update_same] at hc
            injection hc with hh1 _
            show Function.update hs0.hostRegs h1 (readReg hs0.guest.regs r) h = readReg g.regs r'
            rw [← hh1, Function.update_same, hne, hmemv]
          · rw [Function.update_noteq hne] at hc
            have hne1 : h ≠ h1 := by
              intro heq
              rw [heq] at hc
              exact hfresh r' d hc
            show Function.update hs0.hostRegs h1 (readReg hs0.guest.regs r) h = readReg g.regs r'
            rw [Function.update_noteq hne1]
            exact hinv'.cachedVal r' h d hc
        · intro r' hnd
          refine hinv'.memVal r' ?_
          intro h hc
          by_cases hne : r' = r
          · rw [hne] at hc
            exact hnr h true hc
          · refine hnd h ?_
            rw [hscr, Function.update_noteq hne]
            exact hc
        · exact hinv'.r0Eq
        · exact hinv'.pcEq
        · exact hinv'.btEq
        · exact hinv'.cycEq



lemma WF_rebindDirty (cs : RegisterCache) (rd : Reg) (h : HReg) (dOld : Bool)
    (hwf : WF cs) (hc : cs.regState rd = .cached h dOld) (hrd0 : rd ≠ 0) :
    WF ⟨Function.update cs.regState rd (.cached h true),
        cs.lruOrder.erase h ++ [h], cs.pinned⟩ := by
  have hsc : (⟨Function.update cs.regState rd (.cached h true),
      cs.lruOrder.erase h ++ [h], cs.pinned⟩ : RegisterCache).regState =
      Function.update cs.regState rd (GuestRegState.cached h true) := rfl
  have hsl : (⟨Function.update cs.regState rd (.cached h true),
      cs.lruOrder.erase h ++ [h], cs.pinned⟩ : RegisterCache).lruOrder =
      cs.lruOrder.erase h ++ [h] := rfl
  have hup : ∀ r', r' ≠ rd →
      Function.update cs.regState rd (GuestRegState.cached h true) r' = cs.regState r' :=
    fun r' hne => Function.update_noteq hne _ _
  have hupr : Function.update cs.regState rd (GuestRegState.cached h true) rd = .cached h true :=
    Function.update_same rd _ cs.regState
  have honly : ∀ r' d', r' ≠ rd → cs.regState r' ≠ .cached h d' := by
    intro r' d' hne hcc
    exact hne (hwf.inj r' rd h d' dOld hcc hc)
  constructor
  · intro r₁ r₂ h' d₁ d₂ h₁ h₂
    rw [hsc] at h₁ h₂
    by_cases he₁ : r₁ = rd
    · by_cases he₂ : r₂ = rd
      · rw [he₁, he₂]
      · rw [he₁, hupr] at h₁
        injection h₁ with hh _
        rw [hup r₂ he₂] at h₂
        rw [← hh] at h₂
        exact absurd h₂ (honly r₂ d₂ he₂)
    · by_cases he₂ : r₂ = rd
      · rw [he₂, hupr] at h₂
        injection h₂ with hh _
        rw [hup r₁ he₁] at h₁
        rw [← hh] at h₁
        exact absurd h₁ (honly r₁ d₁ he₁)
      · rw [hup r₁ he₁] at h₁
        rw [hup r₂ he₂] at h₂
        exact hwf.inj r₁ r₂ h' d₁ d₂ h₁ h₂
  · intro r' h' d' hcc
    rw [hsc] at hcc
    rw [hsl]
    by_cases he : r' = rd
    · rw [he, hupr] at hcc
      injection hcc with hh _
      rw [← hh]
      simp
    · rw [hup r' he] at hcc
      have hne : h' ≠ h := fun heq => honly r' d' he (heq ▸ hcc)
      exact List.mem_append.mpr (Or.inl ((List.mem_erase_of_ne hne).mpr
        (hwf.cachedInLru r' h' d' hcc)))
  · intro h' hm
    rw [hsl] at hm
    rcases List.mem_append.mp hm with hm | hm
    · obtain ⟨hne, hml⟩ := hwf.nodup.mem_erase_iff.mp hm
      obtain ⟨r', d', hcc⟩ := hwf.lruCached h' hml
      have hner : r' ≠ rd := by
        intro heq
        rw [heq, hc] at hcc
        injection hcc with hh _
        exact hne hh.symm
      refine ⟨r', d', ?_⟩
      rw [hsc, hup r' hner]
      exact hcc
    · rw [List.mem_singleton] at hm
      refine ⟨rd, true, ?_⟩
      rw [hsc, hm]
      exact hupr
  · rw [hsl]
    have hnd : (cs.lruOrder.erase h).Nodup := hwf.nodup.erase h
    have hne : h ∉ cs.lruOrder.erase h := hwf.nodup.not_mem_erase
    simp [List.nodup_append, hnd, hne]
  · intro h' hcc
    rw [hsc] at hcc
    have hz : (0 : Reg) ≠ rd := fun heq => hrd0 heq.symm
    rw [hup 0 hz] at hcc
    exact hwf.r0clean h' hcc

lemma allocForWrite_spec (cs : RegisterCache) (rd : Reg) (h2 : HReg)
    (ops : List HostOp) (cs₂ : RegisterCache) (hwf : WF cs) (hrd0 : rd ≠ 0)
    (haw : allocForWrite cs rd = some (h2, ops, cs₂)) :
    WF cs₂ ∧ cs₂.pinned = cs.pinned ∧
    cs₂.regState rd = .cached h2 true ∧
    (∀ h' d', cs.regState rd = .cached h' d' → h2 = h') ∧
    (∀ r' h d, r' ≠ rd → cs₂.regState r' = .cached h d →
       cs.regState r' = .cached h d ∧ h ≠ h2) ∧
    (∀ r' h d, r' ≠ rd → h ∈ cs.pinned → cs.regState r' = .cached h d →
       cs₂.regState r' = .cached h d) ∧
    (∀ hs, (runOps ops hs).hostRegs = hs.hostRegs) ∧
    (∀ hs g, Inv cs hs g →
       (∀ r', r' ≠ rd → (∀ h, cs₂.regState r' ≠ .cached h true) →
          readReg (runOps ops hs).guest.regs r' = readReg g.regs r') ∧
       (runOps ops hs).guest.regs 0 = g.regs 0 ∧
       (runOps ops hs).guest.pc = g.pc ∧
       (runOps ops hs).guest.branchTarget = g.branchTarget ∧
       (runOps ops hs).guest.cycles = g.cycles) := by
  unfold allocForWrite at haw
  cases hrs : cs.regState rd with
  | cached h d =>
    rw [hrs] at haw
    simp only [Option.some.injEq, Prod.mk.injEq] at haw
    obtain ⟨hh, hops, hcs⟩ := haw
    have hh' := hh.symm
    subst hh'
    subst hops
    have hcs' := hcs.symm
    subst hcs'
    have hup : ∀ r', r' ≠ rd →
        Function.update cs.regState rd (GuestRegState.cached h2 true) r' = cs.regState r' :=
      fun r' hne => Function.update_noteq hne _ _
    have hupr : Function.update cs.regState rd (GuestRegState.cached h2 true) rd = .cached h2 true :=
      Function.update_same rd _ cs.regState
    refine ⟨WF_rebindDirty cs rd h2 d hwf hrs hrd0, rfl, hupr, ?_, ?_, ?_, fun hs => rfl, ?_⟩
    · intro h' d' hcc
      cases hcc
      rfl
    · intro r' h d' hne hcc
      have hcc2 : cs.regState r' = .cached h d' := by
        rw [← hup r' hne]
        exact hcc
      refine ⟨hcc2, ?_⟩
      intro heq
      rw [heq] at hcc2
      exact hne (hwf.inj r' rd h2 d' d hcc2 hrs)
    · intro r' h d' hne hp hcc
      show Function.update cs.regState rd (GuestRegState.cached h2 true) r' = .cached h d'
      rw [hup r' hne]
      exact hcc
    · intro hs g hinv
      refine ⟨?_, hinv.r0Eq, hinv.pcEq, hinv.btEq, hinv.cycEq⟩
      intro r' hne hnd
      refine hinv.memVal r' ?_
      intro h hcc
      refine hnd h ?_
      show Function.update cs.regState rd (GuestRegState.cached h2 true) r' = .cached h true
      rw [hup r' hne]
      exact hcc
  | unallocated =>
    rw [hrs] at haw
    cases halloc : Allocate cs with
    | none => rw [halloc] at haw; exact absurd haw (by simp)
    | some hoc =>
      obtain ⟨h, ops0, cs'⟩ := hoc
      rw [halloc] at haw
      simp only [Option.some.injEq, Prod.mk.injEq] at haw
      obtain ⟨hh, hops, hcs⟩ := haw
      have hh' := hh.symm
      subst hh'
      subst hops
      have hcs' := hcs.symm
      subst hcs'
      obtain ⟨hwf', hpin, hfresh, hflru, hshrink, hpresne, hprespin, hhost, hinvp⟩ :=
        Allocate_spec cs h2 ops0 cs' hwf halloc
      have hnr : ∀ h' d', cs'.regState rd ≠ .cached h' d' := by
        intro h' d' hc
        rw [hshrink rd h' d' hc] at hrs
        exact absurd hrs (by simp)
      have hscr : (setCached cs' rd h2 true).regState =
          Function.update cs'.regState rd (GuestRegState.cached h2 true) := rfl
      refine ⟨WF_setCached cs' rd h2 true hwf' hnr hfresh hflru (fun _ => hrd0), hpin,
              by rw [hscr]; exact Function.update_same rd _ cs'.regState, ?_, ?_, ?_, hhost, ?_⟩
      · intro h' d' hcc
        exact absurd hcc (by simp)
      · intro r' h d hne hcc
        rw [hscr, Function.update_noteq hne] at hcc
        refine ⟨hshrink r' h d hcc, ?_⟩
        intro heq
        rw [heq] at hcc
        exact hfresh r' d hcc
      · intro r' h d hne hp hcc
        rw [hscr, Function.update_noteq hne]
        exact hprespin r' h d hp hcc
      · intro hs g hinv
        have hinv' := hinvp hs g hinv
        refine ⟨?_, hinv'.r0Eq, hinv'.pcEq, hinv'.btEq, hinv'.cycEq⟩
        intro r' hne hnd
        refine hinv'.memVal r' ?_
        intro h hcc
        refine hnd h ?_
        rw [hscr, Function.update_noteq hne]
        exact hcc
  | inMemory =>
    rw [hrs] at haw
    cases halloc : Allocate cs with
    | none => rw [halloc] at haw; exact absurd haw (by simp)
    | some hoc =>
      obtain ⟨h, ops0, cs'⟩ := hoc
      rw [halloc] at haw
      simp only [Option.some.injEq, Prod.mk.injEq] at haw
      obtain ⟨hh, hops, hcs⟩ := haw
      have hh' := hh.symm
      subst hh'
      subst hops
      have hcs' := hcs.symm
      subst hcs'
      obtain ⟨hwf', hpin, hfresh, hflru, hshrink, hpresne, hprespin, hhost, hinvp⟩ :=
        Allocate_spec cs h2 ops0 cs' hwf halloc
      have hnr : ∀ h' d', cs'.regState rd ≠ .cached h' d' := by
        intro h' d' hc
        rw [hshrink rd h' d' hc] at hrs
        exact absurd hrs (by simp)
      have hscr : (setCached cs' rd h2 true).regState =
          Function.update cs'.regState rd (GuestRegState.cached h2 true) := rfl
      refine ⟨WF_setCached cs' rd h2 true hwf' hnr hfresh hflru (fun _ => hrd0), hpin,
              by rw [hscr]; exact Function.update_same rd _ cs'.regState, ?_, ?_, ?_, hhost, ?_⟩
      · intro h' d' hcc
        exact absurd hcc (by simp)
      · intro r' h d hne hcc
        rw [hscr, Function.update_noteq hne] at hcc
        refine ⟨hshrink r' h d hcc, ?_⟩
        intro heq
        rw [heq] at hcc
        exact hfresh r' d hcc
      · intro r' h d hne hp hcc
        rw [hscr, Function.update_noteq hne]
        exact hprespin r' h d hp hcc
      · intro hs g hinv
        have hinv' := hinvp hs g hinv
        refine ⟨?_, hinv'.r0Eq, hinv'.pcEq, hinv'.btEq, hinv'.cycEq⟩
        intro r' hne hnd
        refine hinv'.memVal r' ?_
        intro h hcc
        refine hnd h ?_
        rw [hscr, Function.update_noteq hne]
        exact hcc



lemma runOps_storeOpsFor (cs : RegisterCache) (l : List Reg) (hs : HostState) :
    (runOps (storeOpsFor cs l) hs).hostRegs = hs.hostRegs ∧
    (runOps (storeOpsFor cs l) hs).guest.pc = hs.guest.pc ∧
    (runOps (storeOpsFor cs l) hs).guest.branchTarget = hs.guest.branchTarget ∧
    (runOps (storeOpsFor cs l) hs).guest.cycles = hs.guest.cycles ∧
    ∀ r, (runOps (storeOpsFor cs l) hs).guest.regs r =
      (match cs.regState r with
       | .cached h true => if r ∈ l then hs.hostRegs h else hs.guest.regs r
       | _ => hs.guest.regs r) := by
  induction l generalizing hs with
  | nil =>
    refine ⟨rfl, rfl, rfl, rfl, ?_⟩
    intro r
    show hs.guest.regs r = _
    cases cs.regState r with
    | cached h d =>
      cases d
      · rfl
      · simp
    | unallocated => rfl
    | inMemory => rfl
  | cons a l ih =>
    cases hra : cs.regState a with
    | cached ha da =>
      cases da with
      | true =>
        have hops : storeOpsFor cs (a :: l) =
            HostOp.storeGuestReg a ha :: storeOpsFor cs l := by
          unfold storeOpsFor
          rw [List.filterMap_cons]
          rw [hra]
        rw [hops, runOps_cons]
        have hexec : execOp hs (HostOp.storeGuestReg a ha) =
            { hs with guest := { hs.guest with
                regs := Function.update hs.guest.regs a (hs.hostRegs ha) } } := rfl
        rw [hexec]
        obtain ⟨ih1, ih2, ih3, ih4, ih5⟩ :=
          ih { hs with guest := { hs.guest with
                regs := Function.update hs.guest.regs a (hs.hostRegs ha) } }
        refine ⟨ih1, ih2, ih3, ih4, ?_⟩
        intro r
        rw [ih5 r]
        by_cases hrae : r = a
        · subst hrae
          rw [hra]
          by_cases hrl : r ∈ l
          · simp [hrl]
          · simp [hrl]
        · cases hrr : cs.regState r with
          | cached hr dr =>
            cases dr with
            | true =>
              have hmem : (r ∈ a :: l) = (r ∈ l) := by
                simp [List.mem_cons, hrae]
              simp only [hmem]
              by_cases hrl : r ∈ l
              · simp [hrl]
              · simp [hrl, Function.update_noteq hrae]
            | false => simp [Function.update_noteq hrae]
          | unallocated => simp [Function.update_noteq hrae]
          | inMemory => simp [Function.update_noteq hrae]
      | false =>
        have hops : storeOpsFor cs (a :: l) = storeOpsFor cs l := by
          unfold storeOpsFor
          rw [List.filterMap_cons]
          rw [hra]
        rw [hops]
        obtain ⟨ih1, ih2, ih3, ih4, ih5⟩ := ih hs
        refine ⟨ih1, ih2, ih3, ih4, ?_⟩
        intro r
        rw [ih5 r]
        by_cases hrae : r = a
        · subst hrae
          rw [hra]
        · cases hrr : cs.regState r with
          | cached hr dr =>
            cases dr with
            | true =>
              have hmem : (r ∈ a :: l) = (r ∈ l) := by
                simp [List.mem_cons, hrae]
              simp only [hmem]
            | false => rfl
          | unallocated => rfl
          | inMemory => rfl
    | unallocated =>
      have hops : storeOpsFor cs (a :: l) = storeOpsFor cs l := by
        unfold storeOpsFor
        rw [List.filterMap_cons]
        rw [hra]
      rw [hops]
      obtain ⟨ih1, ih2, ih3, ih4, ih5⟩ := ih hs
      refine ⟨ih1, ih2, ih3, ih4, ?_⟩
      intro r
      rw [ih5 r]
      by_cases hrae : r = a
      · subst hrae
        rw [hra]
      · cases hrr : cs.regState r with
        | cached hr dr =>
          cases dr with
          | true =>
            have hmem : (r ∈ a :: l) = (r ∈ l) := by
              simp [List.mem_cons, hrae]
            simp only [hmem]
          | false => rfl
        | unallocated => rfl
        | inMemory => rfl
    | inMemory =>
      have hops : storeOpsFor cs (a :: l) = storeOpsFor cs l := by
        unfold storeOpsFor
        rw [List.filterMap_cons]
        rw [hra]
      rw [hops]
      obtain ⟨ih1, ih2, ih3, ih4, ih5⟩ := ih hs
      refine ⟨ih1, ih2, ih3, ih4, ?_⟩
      intro r
      rw [ih5 r]
      by_cases hrae : r = a
      · subst hrae
        rw [hra]
      · cases hrr : cs.regState r with
        | cached hr dr =>
          cases dr with
          | true =>
            have hmem : (r ∈ a :: l) = (r ∈ l) := by
              simp [List.mem_cons, hrae]
            simp only [hmem]
          | false => rfl
        | unallocated => rfl
        | inMemory => rfl



lemma FlushAll_spec (cs : RegisterCache) (hwf : WF cs) :
    WF (FlushAll cs).2 ∧
    (FlushAll cs).2.pinned = cs.pinned ∧
    (∀ r h d, (FlushAll cs).2.regState r ≠ .cached h d) ∧
    ∀ hs g, Inv cs hs g →
      (runOps (FlushAll cs).1 hs).hostRegs = hs.hostRegs ∧
      (runOps (FlushAll cs).1 hs).guest = g ∧
      Inv (FlushAll cs).2 (runOps (FlushAll cs).1 hs) g := by
  have h2r : (FlushAll cs).2.regState = fun r => flushedState (cs.regState r) := rfl
  have h2l : (FlushAll cs).2.lruOrder = ([] : List HReg) := rfl
  have h1 : (FlushAll cs).1 = storeOpsFor cs (List.finRange 32) := rfl
  have hnc : ∀ r h d, (FlushAll cs).2.regState r ≠ .cached h d := by
    intro r h d hc
    rw [h2r] at hc
    revert hc
    show flushedState (cs.regState r) = GuestRegState.cached h d → False
    cases cs.regState r <;> simp [flushedState]
  have hwf2 : WF (FlushAll cs).2 := by
    constructor
    · intro r₁ r₂ h d₁ d₂ h₁ _
      exact absurd h₁ (hnc r₁ h d₁)
    · intro r h d hc
      exact absurd hc (hnc r h d)
    · intro h hm
      rw [h2l] at hm
      exact absurd hm (List.not_mem_nil h)
    · rw [h2l]
      exact List.nodup_nil
    · intro h hc
      exact absurd hc (hnc 0 h true)
  refine ⟨hwf2, rfl, hnc, ?_⟩
  intro hs g hinv
  obtain ⟨ih1, ih2, ih3, ih4, ih5⟩ := runOps_storeOpsFor cs (List.finRange 32) hs
  rw [h1]
  have hregs : (runOps (storeOpsFor cs (List.finRange 32)) hs).guest.regs = g.regs := by
    funext r
    rw [ih5 r]
    cases hcr : cs.regState r with
    | cached h d =>
      cases d with
      | true =>
        have hr0 : r ≠ 0 := by
          intro hz
          rw [hz] at hcr
          exact hwf.r0clean h hcr
        have hcv := hinv.cachedVal r h true hcr
        unfold readReg at hcv
        rw [if_neg hr0] at hcv
        simp only [List.mem_finRange, if_true]
        exact hcv
      | false =>
        have hmv := hinv.memVal r (by intro h' hc; rw [hcr] at hc; injection hc with _ hd; exact absurd hd.symm (by decide))
        by_cases hz : r = 0
        · rw [hz]
          exact hinv.r0Eq
        · unfold readReg at hmv
          rw [if_neg hz, if_neg hz] at hmv
          exact hmv
    | unallocated =>
      have hmv := hinv.memVal r (by intro h' hc; rw [hcr] at hc; exact absurd hc (by simp))
      by_cases hz : r = 0
      · rw [hz]
        exact hinv.r0Eq
      · unfold readReg at hmv
        rw [if_neg hz, if_neg hz] at hmv
        exact hmv
    | inMemory =>
      have hmv := hinv.memVal r (by intro h' hc; rw [hcr] at hc; exact absurd hc (by simp))
      by_cases hz : r = 0
      · rw [hz]
        exact hinv.r0Eq
      · unfold readReg at hmv
        rw [if_neg hz, if_neg hz] at hmv
        exact hmv
  have hguest : (runOps (storeOpsFor cs (List.finRange 32)) hs).guest = g := by
    apply GuestState.ext
    · exact hregs
    · rw [ih2]
      exact hinv.pcEq
    · rw [ih3]
      exact hinv.btEq
    · rw [ih4]
      exact hinv.cycEq
  refine ⟨ih1, hguest, ?_, ?_, ?_, ?_, ?_, ?_⟩
  · intro r h d hc
    exact absurd hc (hnc r h d)
  · intro r _
    rw [hguest]
  · rw [hguest]
  · rw [hguest]
  · rw [hguest]
  · rw [hguest]

lemma Compile_Fallback_spec (cs : RegisterCache) (i : Instr) (ops : List HostOp)
    (cs' : RegisterCache) (hwf : WF cs)
    (hf : Compile_Fallback cs i = some (ops, cs')) :
    WF cs' ∧ cs'.pinned = cs.pinned ∧
    ∀ hs g, Inv cs hs g → Inv cs' (runOps ops hs) (interpretOne g i) := by
  unfold Compile_Fallback at hf
  simp only [Option.some.injEq, Prod.mk.injEq] at hf
  obtain ⟨hops, hcs⟩ := hf
  have hops' := hops.symm
  subst hops'
  have hcs' := hcs.symm
  subst hcs'
  obtain ⟨hwf2, hpin2, hnc2, hrun⟩ := FlushAll_spec cs hwf
  refine ⟨hwf2, hpin2, ?_⟩
  intro hs g hinv
  obtain ⟨hhost, hguest, hinv2⟩ := hrun hs g hinv
  rw [runOps_append]
  have hcall : runOps [HostOp.callInterp i] (runOps (FlushAll cs).1 hs) =
      { runOps (FlushAll cs).1 hs with
        guest := interpretOne (runOps (FlushAll cs).1 hs).guest i } := rfl
  rw [hcall, hguest]
  constructor
  · intro r h d hc
    exact absurd hc (hnc2 r h d)
  · intro r _
    rfl
  · rfl
  · rfl
  · rfl
  · rfl



lemma writeReg_ne (regs : Reg → Nat) (rd : Reg) (v : Nat) (h : rd ≠ 0) :
    writeReg regs rd v = Function.update regs rd v := by
  unfold writeReg
  rw [if_neg h]

lemma readReg_writeReg_self (regs : Reg → Nat) (rd : Reg) (v : Nat) (h : rd ≠ 0) :
    readReg (writeReg regs rd v) rd = v := by
  rw [writeReg_ne regs rd v h]
  unfold readReg
  rw [if_neg h, Function.update_same]

lemma readReg_writeReg_other (regs : Reg → Nat) (rd : Reg) (v : Nat) (r' : Reg)
    (h : r' ≠ rd) : readReg (writeReg regs rd v) r' = readReg regs r' := by
  unfold writeReg readReg
  by_cases hz : rd = 0
  · rw [if_pos hz]
  · rw [if_neg hz]
    by_cases hz' : r' = 0
    · rw [if_pos hz', if_pos hz']
    · rw [if_neg hz', if_neg hz', Function.update_noteq h]

lemma writeReg_zero_other (regs : Reg → Nat) (rd : Reg) (v : Nat) (h : rd ≠ 0) :
    writeReg regs rd v 0 = regs 0 := by
  rw [writeReg_ne regs rd v h]
  exact Function.update_noteq (fun hz => h hz.symm) _ _

lemma runOps_instrTail (hs : HostState) :
    runOps instrTail hs =
    { hs with guest := { hs.guest with
        pc := match hs.guest.branchTarget with
              | some t => t
              | none => hs.guest.pc + 4
        branchTarget := none
        cycles := hs.guest.cycles + 1 } } := by
  obtain ⟨hr, g⟩ := hs
  obtain ⟨regs, pc, bt, cyc⟩ := g
  cases bt <;> rfl

lemma compileALUInstr_spec (cs : RegisterCache) (rd rs : Reg) (u : Uop)
    (ops : List HostOp) (cs' : RegisterCache) (hwf : WF cs) (hpin : cs.pinned = [])
    (hcomp : compileALUInstr cs rd rs u = some (ops, cs')) :
    WF cs' ∧ cs'.pinned = [] ∧
    ∀ hs g, Inv cs hs g → Inv cs' (runOps ops hs) (aluStep g rd rs u) := by
  unfold compileALUInstr at hcomp
  by_cases hrd0 : rd = 0
  · rw [if_pos hrd0] at hcomp
    simp only [Option.some.injEq, Prod.mk.injEq] at hcomp
    obtain ⟨hops, hcs⟩ := hcomp
    have hops' := hops.symm
    subst hops'
    have hcs' := hcs.symm
    subst hcs'
    refine ⟨hwf, hpin, ?_⟩
    intro hs g hinv
    rw [runOps_instrTail]
    have hwr : writeReg g.regs rd (evalUop u (readReg g.regs rs)) = g.regs := by
      unfold writeReg
      rw [if_pos hrd0]
    constructor
    · intro r h d hc
      have := hinv.cachedVal r h d hc
      show hs.hostRegs h = readReg (aluStep g rd rs u).regs r
      show hs.hostRegs h = readReg (writeReg g.regs rd (evalUop u (readReg g.regs rs))) r
      rw [hwr]
      exact this
    · intro r hnd
      show readReg hs.guest.regs r = readReg (writeReg g.regs rd (evalUop u (readReg g.regs rs))) r
      rw [hwr]
      exact hinv.memVal r hnd
    · show hs.guest.regs 0 = writeReg g.regs rd (evalUop u (readReg g.regs rs)) 0
      rw [hwr]
      exact hinv.r0Eq
    · show (match hs.guest.branchTarget with
            | some t => t
            | none => hs.guest.pc + 4) = (aluStep g rd rs u).pc
      rw [hinv.btEq, hinv.pcEq]
      rfl
    · rfl
    · show hs.guest.cycles + 1 = g.cycles + 1
      rw [hinv.cycEq]
  · rw [if_neg hrd0] at hcomp
    cases hread : readGuestToHost cs rs with
    | none => rw [hread] at hcomp; exact absurd hcomp (by simp)
    | some t1 =>
      obtain ⟨h1, ops1, cs1⟩ := t1
      rw [hread] at hcomp
      have hcomp2 : (match allocForWrite (pinReg cs1 h1) rd with
          | some (h2, ops2, cs2) =>
            some (ops1 ++ ops2 ++ [HostOp.copyReg h2 h1, HostOp.applyUop h2 u] ++ instrTail,
                  unpinReg cs2 h1)
          | none => none) = some (ops, cs') := hcomp
      clear hcomp
      cases haw : allocForWrite (pinReg cs1 h1) rd with
      | none => rw [haw] at hcomp2; exact absurd hcomp2 (by simp)
      | some t2 =>
        obtain ⟨h2, ops2, cs2⟩ := t2
        rw [haw] at hcomp2
        simp only [Option.some.injEq, Prod.mk.injEq] at hcomp2
        obtain ⟨hops, hcs⟩ := hcomp2
        have hops' := hops.symm
        subst hops'
        have hcs' := hcs.symm
        subst hcs'
        obtain ⟨hwf1, hpin1, ⟨d1, hcs1rs⟩, hshrink1, hinvp1⟩ :=
          readGuestToHost_spec cs rs h1 ops1 cs1 hwf hread
        have hwf1p : WF (pinReg cs1 h1) :=
          ⟨hwf1.inj, hwf1.cachedInLru, hwf1.lruCached, hwf1.nodup, hwf1.r0clean⟩
        obtain ⟨hwf2, hpin2, hcs2rd, hsame2, hshrink2, hprespin2, hhost2, hinvf2⟩ :=
          allocForWrite_spec (pinReg cs1 h1) rd h2 ops2 cs2 hwf1p hrd0 haw
        have hwfu : WF (unpinReg cs2 h1) :=
          ⟨hwf2.inj, hwf2.cachedInLru, hwf2.lruCached, hwf2.nodup, hwf2.r0clean⟩
        have hpinu : (unpinReg cs2 h1).pinned = [] := by
          show cs2.pinned.erase h1 = []
          rw [hpin2]
          show (h1 :: cs1.pinned).erase h1 = []
          rw [List.erase_cons_head]
          rw [hpin1, hpin]
        refine ⟨hwfu, hpinu, ?_⟩
        intro hs g hinv
        have hinv1 := hinvp1 hs g hinv
        have hinv1p : Inv (pinReg cs1 h1) (runOps ops1 hs) g :=
          ⟨hinv1.cachedVal, hinv1.memVal, hinv1.r0Eq, hinv1.pcEq, hinv1.btEq, hinv1.cycEq⟩
        obtain ⟨hmv2, hr02, hpc2, hbt2, hcyc2⟩ := hinvf2 (runOps ops1 hs) g hinv1p
        rw [runOps_append, runOps_append, runOps_append, runOps_instrTail]
        set hs2 := runOps ops2 (runOps ops1 hs) with hhs2
        have hval1 : hs2.hostRegs h1 = readReg g.regs rs := by
          rw [hhost2]
          exact hinv1.cachedVal rs h1 d1 hcs1rs
        have hstep : (execOp (execOp hs2 (HostOp.copyReg h2 h1)) (HostOp.applyUop h2 u)).hostRegs =
            Function.update hs2.hostRegs h2 (evalUop u (hs2.hostRegs h1)) := by
          show Function.update (Function.update hs2.hostRegs h2 (hs2.hostRegs h1)) h2 (evalUop u (Function.update hs2.hostRegs h2 (hs2.hostRegs h1) h2)) = Function.update hs2.hostRegs h2 (evalUop u (hs2.hostRegs h1))
          rw [Function.update_same, Function.update_idem]
        have hmid : runOps [HostOp.copyReg h2 h1, HostOp.applyUop h2 u] hs2 =
            { hs2 with hostRegs :=
                Function.update hs2.hostRegs h2 (evalUop u (hs2.hostRegs h1)) } := by
          apply HostState.ext
          · exact hstep
          · rfl
        rw [hmid]
        set v := evalUop u (readReg g.regs rs) with hv
        constructor
        · intro r' h' d' hc
          show Function.update hs2.hostRegs h2 (evalUop u (hs2.hostRegs h1)) h' =
               readReg (aluStep g rd rs u).regs r'
          by_cases hrr : r' = rd
          · subst hrr
            have hcc : cs2.regState r' = .cached h' d' := hc
            rw [hcs2rd] at hcc
            injection hcc with hch hcd
            rw [← hch, Function.update_same, hval1]
            show evalUop u (readReg g.regs rs) = readReg (writeReg g.regs r' v) r'
            rw [readReg_writeReg_self g.regs r' v hrd0, hv]
          · obtain ⟨hcprev, hneh2⟩ := hshrink2 r' h' d' hrr hc
            rw [Function.update_noteq hneh2, hhost2]
            have := hinv1.cachedVal r' h' d' hcprev
            rw [this]
            show readReg g.regs r' = readReg (aluStep g rd rs u).regs r'
            show readReg g.regs r' = readReg (writeReg g.regs rd v) r'
            rw [readReg_writeReg_other g.regs rd v r' hrr]
        · intro r' hnd
          by_cases hrr : r' = rd
          · exact absurd hcs2rd (hrr ▸ hnd h2)
          · have hmv := hmv2 r' hrr hnd
            show readReg hs2.guest.regs r' = readReg (aluStep g rd rs u).regs r'
            rw [hmv]
            show readReg g.regs r' = readReg (writeReg g.regs rd v) r'
            rw [readReg_writeReg_other g.regs rd v r' hrr]
        · show hs2.guest.regs 0 = (aluStep g rd rs u).regs 0
          rw [hr02]
          show g.regs 0 = writeReg g.regs rd v 0
          rw [writeReg_zero_other g.regs rd v hrd0]
        · show (match hs2.guest.branchTarget with
                | some t => t
                | none => hs2.guest.pc + 4) = (aluStep g rd rs u).pc
          rw [hbt2, hpc2]
          rfl
        · rfl
        · show hs2.guest.cycles + 1 = g.cycles + 1
          rw [hcyc2]



lemma interpretOne_ori (g : GuestState) (rt rs : Reg) (imm : Nat) :
    interpretOne g (.ori rt rs imm) = aluStep g rt rs (.orImm (imm % 65536)) := rfl

lemma interpretOne_sll (g : GuestState) (rd rt : Reg) (shamt : Nat) :
    interpretOne g (.sll rd rt shamt) = aluStep g rd rt (.shlImm (shamt % 32)) := rfl

lemma interpretOne_srl (g : GuestState) (rd rt : Reg) (shamt : Nat) :
    interpretOne g (.srl rd rt shamt) = aluStep g rd rt (.shrImm (shamt % 32)) := rfl

lemma interpretOne_addiu (g : GuestState) (rt rs : Reg) (imm : Nat) :
    interpretOne g (.addiu rt rs imm) = aluStep g rt rs (.addImm (signExt16 imm)) := rfl

lemma Compile_lui_spec (cs : RegisterCache) (rt : Reg) (imm : Nat)
    (ops : List HostOp) (cs' : RegisterCache) (hwf : WF cs) (hpin : cs.pinned = [])
    (hl : Compile_lui cs rt imm = some (ops, cs')) :
    WF cs' ∧ cs'.pinned = [] ∧
    ∀ hs g, Inv cs hs g → Inv cs' (runOps ops hs) (interpretOne g (.lui rt imm)) := by
  unfold Compile_lui at hl
  by_cases hrt0 : rt = 0
  · rw [if_pos hrt0] at hl
    simp only [Option.some.injEq, Prod.mk.injEq] at hl
    obtain ⟨hops, hcs⟩ := hl
    have hops' := hops.symm
    subst hops'
    have hcs' := hcs.symm
    subst hcs'
    refine ⟨hwf, hpin, ?_⟩
    intro hs g hinv
    rw [runOps_instrTail]
    have hwr : writeReg g.regs rt (luiConst imm) = g.regs := by
      unfold writeReg
      rw [if_pos hrt0]
    constructor
    · intro r h d hc
      have := hinv.cachedVal r h d hc
      show hs.hostRegs h = readReg (writeReg g.regs rt (luiConst imm)) r
      rw [hwr]
      exact this
    · intro r hnd
      show readReg hs.guest.regs r = readReg (writeReg g.regs rt (luiConst imm)) r
      rw [hwr]
      exact hinv.memVal r hnd
    · show hs.guest.regs 0 = writeReg g.regs rt (luiConst imm) 0
      rw [hwr]
      exact hinv.r0Eq
    · show (match hs.guest.branchTarget with
            | some t => t
            | none => hs.guest.pc + 4) = (interpretOne g (.lui rt imm)).pc
      rw [hinv.btEq, hinv.pcEq]
      rfl
    · rfl
    · show hs.guest.cycles + 1 = g.cycles + 1
      rw [hinv.cycEq]
  · rw [if_neg hrt0] at hl
    cases haw : allocForWrite cs rt with
    | none => rw [haw] at hl; exact absurd hl (by simp)
    | some t2 =>
      obtain ⟨h2, ops2, cs2⟩ := t2
      rw [haw] at hl
      simp only [Option.some.injEq, Prod.mk.injEq] at hl
      obtain ⟨hops, hcs⟩ := hl
      have hops' := hops.symm
      subst hops'
      subst hcs
      obtain ⟨hwf2, hpin2, hcs2rd, hsame2, hshrink2, hprespin2, hhost2, hinvf2⟩ :=
        allocForWrite_spec cs rt h2 ops2 cs2 hwf hrt0 haw
      refine ⟨hwf2, by rw [hpin2, hpin], ?_⟩
      intro hs g hinv
      obtain ⟨hmv2, hr02, hpc2, hbt2, hcyc2⟩ := hinvf2 hs g hinv
      rw [runOps_append, runOps_append, runOps_instrTail]
      set hs2 := runOps ops2 hs with hhs2
      have hload : runOps [HostOp.loadConst h2 (luiConst imm)] hs2 =
          { hs2 with hostRegs := Function.update hs2.hostRegs h2 (luiConst imm) } := rfl
      rw [hload]
      constructor
      · intro r' h' d' hc
        show Function.update hs2.hostRegs h2 (luiConst imm) h' =
             readReg (writeReg g.regs rt (luiConst imm)) r'
        by_cases hrr : r' = rt
        · subst hrr
          have hcc : cs2.regState r' = .cached h' d' := hc
          rw [hcs2rd] at hcc
          injection hcc with hch hcd
          rw [← hch, Function.update_same]
          rw [readReg_writeReg_self g.regs r' (luiConst imm) hrt0]
        · obtain ⟨hcprev, hneh2⟩ := hshrink2 r' h' d' hrr hc
          rw [Function.update_noteq hneh2, hhost2]
          have := hinv.cachedVal r' h' d' hcprev
          rw [this]
          rw [readReg_writeReg_other g.regs rt (luiConst imm) r' hrr]
      · intro r' hnd
        by_cases hrr : r' = rt
        · exact absurd hcs2rd (hrr ▸ hnd h2)
        · have hmv := hmv2 r' hrr hnd
          show readReg hs2.guest.regs r' = readReg (writeReg g.regs rt (luiConst imm)) r'
          rw [hmv, readReg_writeReg_other g.regs rt (luiConst imm) r' hrr]
      · show hs2.guest.regs 0 = writeReg g.regs rt (luiConst imm) 0
        rw [hr02, writeReg_zero_other g.regs rt (luiConst imm) hrt0]
      · show (match hs2.guest.branchTarget with
              | some t => t
              | none => hs2.guest.pc + 4) = (interpretOne g (.lui rt imm)).pc
        rw [hbt2, hpc2]
        rfl
      · rfl
      · show hs2.guest.cycles + 1 = g.cycles + 1
        rw [hcyc2]

lemma CompileInstruction_spec (cs : RegisterCache) (i : Instr)
    (ops : List HostOp) (cs' : RegisterCache) (hwf : WF cs) (hpin : cs.pinned = [])
    (hci : CompileInstruction cs i = some (ops, cs')) :
    WF cs' ∧ cs'.pinned = [] ∧
    ∀ hs g, Inv cs hs g → Inv cs' (runOps ops hs) (interpretOne g i) := by
  cases i with
  | lui rt imm =>
    exact Compile_lui_spec cs rt imm ops cs' hwf hpin hci
  | ori rt rs imm =>
    obtain ⟨h1, h2, h3⟩ := compileALUInstr_spec cs rt rs (.orImm (imm % 65536)) ops cs' hwf hpin hci
    refine ⟨h1, h2, ?_⟩
    intro hs g hinv
    rw [interpretOne_ori]
    exact h3 hs g hinv
  | sll rd rt shamt =>
    obtain ⟨h1, h2, h3⟩ := compileALUInstr_spec cs rd rt (.shlImm (shamt % 32)) ops cs' hwf hpin hci
    refine ⟨h1, h2, ?_⟩
    intro hs g hinv
    rw [interpretOne_sll]
    exact h3 hs g hinv
  | srl rd rt shamt =>
    obtain ⟨h1, h2, h3⟩ := compileALUInstr_spec cs rd rt (.shrImm (shamt % 32)) ops cs' hwf hpin hci
    refine ⟨h1, h2, ?_⟩
    intro hs g hinv
    rw [interpretOne_srl]
    exact h3 hs g hinv
  | addiu rt rs imm =>
    obtain ⟨h1, h2, h3⟩ := compileALUInstr_spec cs rt rs (.addImm (signExt16 imm)) ops cs' hwf hpin hci
    refine ⟨h1, h2, ?_⟩
    intro hs g hinv
    rw [interpretOne_addiu]
    exact h3 hs g hinv
  | beq rs rt target =>
    obtain ⟨h1, h2, h3⟩ := Compile_Fallback_spec cs (.beq rs rt target) ops cs' hwf hci
    exact ⟨h1, by rw [h2, hpin], h3⟩
  | invalid =>
    exact absurd hci (by simp [CompileInstruction])



lemma interpretBlock_cons (i : Instr) (rest : List Instr) (g : GuestState) :
    interpretBlock (i :: rest) g = interpretBlock rest (interpretOne g i) := rfl

lemma CompileBlockAux_spec (block : List Instr) :
    ∀ (cs : RegisterCache) (ops : List HostOp) (cs' : RegisterCache),
    WF cs → cs.pinned = [] → CompileBlockAux cs block = some (ops, cs') →
    WF cs' ∧ cs'.pinned = [] ∧ (∀ r h d, cs'.regState r ≠ .cached h d) ∧
    ∀ hs g, Inv cs hs g →
      (runOps ops hs).guest = interpretBlock block g ∧
      Inv cs' (runOps ops hs) (interpretBlock block g) := by
  induction block with
  | nil =>
    intro cs ops cs' hwf hpin hcb
    unfold CompileBlockAux at hcb
    simp only [Option.some.injEq] at hcb
    have hops : (FlushAll cs).1 = ops := congrArg Prod.fst hcb
    have hcs : (FlushAll cs).2 = cs' := congrArg Prod.snd hcb
    subst hops
    subst hcs
    obtain ⟨hwf2, hpin2, hnc2, hrun⟩ := FlushAll_spec cs hwf
    refine ⟨hwf2, by rw [hpin2, hpin], hnc2, ?_⟩
    intro hs g hinv
    obtain ⟨hhost, hguest, hinv2⟩ := hrun hs g hinv
    exact ⟨hguest, hinv2⟩
  | cons i rest ih =>
    intro cs ops cs' hwf hpin hcb
    unfold CompileBlockAux at hcb
    cases hci : CompileInstruction cs i with
    | none => rw [hci] at hcb; exact absurd hcb (by simp)
    | some t1 =>
      obtain ⟨ops1, cs1⟩ := t1
      rw [hci] at hcb
      have hcb2 : (match CompileBlockAux cs1 rest with
          | some (ops2, cs2) => some (ops1 ++ ops2, cs2)
          | none => none) = some (ops, cs') := hcb
      clear hcb
      cases hrest : CompileBlockAux cs1 rest with
      | none => rw [hrest] at hcb2; exact absurd hcb2 (by simp)
      | some t2 =>
        obtain ⟨ops2, cs2⟩ := t2
        rw [hrest] at hcb2
        simp only [Option.some.injEq, Prod.mk.injEq] at hcb2
        obtain ⟨hops, hcs⟩ := hcb2
        have hops' := hops.symm
        subst hops'
        subst hcs
        obtain ⟨hwf1, hpin1, hinvi⟩ := CompileInstruction_spec cs i ops1 cs1 hwf hpin hci
        obtain ⟨hwf2, hpin2, hnc2, hrest2⟩ := ih cs1 ops2 cs2 hwf1 hpin1 hrest
        refine ⟨hwf2, hpin2, hnc2, ?_⟩
        intro hs g hinv
        rw [runOps_append, interpretBlock_cons]
        exact hrest2 (runOps ops1 hs) (interpretOne g i) (hinvi hs g hinv)

lemma Inv_initial (g : GuestState) (hregs : HReg → Nat) :
    Inv initialCache { hostRegs := hregs, guest := g } g := by
  constructor
  · intro r h d hc
    exact absurd hc (by simp [initialCache])
  · intro r _
    rfl
  · rfl
  · rfl
  · rfl
  · rfl



lemma readGuestToHost_isSome (cs : RegisterCache) (r : Reg) (hwf : WF cs)
    (hex : ∃ h : HReg, h ∉ cs.pinned) : (readGuestToHost cs r).isSome := by
  unfold readGuestToHost
  cases hrs : cs.regState r with
  | cached h d => rfl
  | unallocated =>
    obtain ⟨res, halloc⟩ := Option.isSome_iff_exists.mp (Allocate_isSome cs hwf hex)
    obtain ⟨h, ops0, cs'⟩ := res
    rw [halloc]
    rfl
  | inMemory =>
    obtain ⟨res, halloc⟩ := Option.isSome_iff_exists.mp (Allocate_isSome cs hwf hex)
    obtain ⟨h, ops0, cs'⟩ := res
    rw [halloc]
    rfl

lemma allocForWrite_isSome (cs : RegisterCache) (rd : Reg) (hwf : WF cs)
    (hex : ∃ h : HReg, h ∉ cs.pinned) : (allocForWrite cs rd).isSome := by
  unfold allocForWrite
  cases hrs : cs.regState rd with
  | cached h d => rfl
  | unallocated =>
    obtain ⟨res, halloc⟩ := Option.isSome_iff_exists.mp (Allocate_isSome cs hwf hex)
    obtain ⟨h, ops0, cs'⟩ := res
    rw [halloc]
    rfl
  | inMemory =>
    obtain ⟨res, halloc⟩ := Option.isSome_iff_exists.mp (Allocate_isSome cs hwf hex)
    obtain ⟨h, ops0, cs'⟩ := res
    rw [halloc]
    rfl

lemma exists_unpinned_one (h1 : HReg) : ∃ h : HReg, h ∉ [h1] := by
  by_cases hh : h1 = 0
  · refine ⟨1, ?_⟩
    rw [hh]
    decide
  · refine ⟨0, ?_⟩
    rw [List.mem_singleton]
    exact fun heq => hh heq.symm

lemma compileALUInstr_isSome (cs : RegisterCache) (rd rs : Reg) (u : Uop)
    (hwf : WF cs) (hpin : cs.pinned = []) : (compileALUInstr cs rd rs u).isSome := by
  unfold compileALUInstr
  by_cases hrd0 : rd = 0
  · rw [if_pos hrd0]
    rfl
  · rw [if_neg hrd0]
    have hex0 : ∃ h : HReg, h ∉ cs.pinned := ⟨0, by rw [hpin]; exact List.not_mem_nil 0⟩
    obtain ⟨t1, hread⟩ := Option.isSome_iff_exists.mp (readGuestToHost_isSome cs rs hwf hex0)
    obtain ⟨h1, ops1, cs1⟩ := t1
    rw [hread]
    obtain ⟨hwf1, hpin1, _, _, _⟩ := readGuestToHost_spec cs rs h1 ops1 cs1 hwf hread
    have hwf1p : WF (pinReg cs1 h1) :=
      ⟨hwf1.inj, hwf1.cachedInLru, hwf1.lruCached, hwf1.nodup, hwf1.r0clean⟩
    have hex1 : ∃ h : HReg, h ∉ (pinReg cs1 h1).pinned := by
      show ∃ h : HReg, h ∉ h1 :: cs1.pinned
      rw [hpin1, hpin]
      exact exists_unpinned_one h1
    obtain ⟨t2, haw⟩ := Option.isSome_iff_exists.mp
      (allocForWrite_isSome (pinReg cs1 h1) rd hwf1p hex1)
    obtain ⟨h2, ops2, cs2⟩ := t2
    show (match allocForWrite (pinReg cs1 h1) rd with
          | some (h2, ops2, cs2) =>
            some (ops1 ++ ops2 ++ [HostOp.copyReg h2 h1, HostOp.applyUop h2 u] ++ instrTail,
                  unpinReg cs2 h1)
          | none => none).isSome
    rw [haw]
    rfl

lemma Compile_lui_isSome (cs : RegisterCache) (rt : Reg) (imm : Nat)
    (hwf : WF cs) (hpin : cs.pinned = []) : (Compile_lui cs rt imm).isSome := by
  unfold Compile_lui
  by_cases hrt0 : rt = 0
  · rw [if_pos hrt0]
    rfl
  · rw [if_neg hrt0]
    have hex0 : ∃ h : HReg, h ∉ cs.pinned := ⟨0, by rw [hpin]; exact List.not_mem_nil 0⟩
    obtain ⟨t2, haw⟩ := Option.isSome_iff_exists.mp (allocForWrite_isSome cs rt hwf hex0)
    obtain ⟨h2, ops2, cs2⟩ := t2
    rw [haw]
    rfl

lemma CompileInstruction_isSome (cs : RegisterCache) (i : Instr)
    (hwf : WF cs) (hpin : cs.pinned = []) (hi : i ≠ .invalid) :
    (CompileInstruction cs i).isSome := by
  cases i with
  | lui rt imm => exact Compile_lui_isSome cs rt imm hwf hpin
  | ori rt rs imm => exact compileALUInstr_isSome cs rt rs (.orImm (imm % 65536)) hwf hpin
  | sll rd rt shamt => exact compileALUInstr_isSome cs rd rt (.shlImm (shamt % 32)) hwf hpin
  | srl rd rt shamt => exact compileALUInstr_isSome cs rd rt (.shrImm (shamt % 32)) hwf hpin
  | addiu rt rs imm => exact compileALUInstr_isSome cs rt rs (.addImm (signExt16 imm)) hwf hpin
  | beq rs rt target => rfl
  | invalid => exact absurd rfl hi

lemma CompileBlockAux_isSome (block : List Instr) :
    ∀ cs : RegisterCache, WF cs → cs.pinned = [] → (∀ i ∈ block, i ≠ .invalid) →
    (CompileBlockAux cs block).isSome := by
  induction block with
  | nil =>
    intro cs _ _ _
    rfl
  | cons i rest ih =>
    intro cs hwf hpin hvalid
    obtain ⟨t1, hci⟩ := Option.isSome_iff_exists.mp
      (CompileInstruction_isSome cs i hwf hpin (hvalid i (List.mem_cons_self i rest)))
    obtain ⟨ops1, cs1⟩ := t1
    obtain ⟨hwf1, hpin1, _⟩ := CompileInstruction_spec cs i ops1 cs1 hwf hpin hci
    have hvalid1 : ∀ j ∈ rest, j ≠ Instr.invalid :=
      fun j hj => hvalid j (List.mem_cons_of_mem i hj)
    obtain ⟨t2, hrest⟩ := Option.isSome_iff_exists.mp (ih cs1 hwf1 hpin1 hvalid1)
    obtain ⟨ops2, cs2⟩ := t2
    unfold CompileBlockAux
    rw [hci]
    show (match CompileBlockAux cs1 rest with
          | some (ops2, cs2) => some (ops1 ++ ops2, cs2)
          | none => none).isSome
    rw [hrest]
    rfl

lemma CompileBlockAux_isSome_inv (block : List Instr) :
    ∀ cs : RegisterCache, (CompileBlockAux cs block).isSome →
    ∀ i ∈ block, i ≠ .invalid := by
  induction block with
  | nil =>
    intro cs _ i hi
    exact absurd hi (List.not_mem_nil i)
  | cons i rest ih =>
    intro cs hsome j hj
    unfold CompileBlockAux at hsome
    cases hci : CompileInstruction cs i with
    | none =>
      rw [hci] at hsome
      exact absurd hsome (by simp)
    | some t1 =>
      obtain ⟨ops1, cs1⟩ := t1
      rw [hci] at hsome
      have hsome2 : (match CompileBlockAux cs1 rest with
          | some (ops2, cs2) => some (ops1 ++ ops2, cs2)
          | none => none).isSome := hsome
      rcases List.mem_cons.mp hj with hj | hj
      · subst hj
        intro hinv
        rw [hinv] at hci
        exact absurd hci (by simp [CompileInstruction])
      · cases hrest : CompileBlockAux cs1 rest with
        | none =>
          rw [hrest] at hsome2
          exact absurd hsome2 (by simp)
        | some t2 =>
          exact ih cs1 (by rw [hrest]; rfl) j hj



/-- C1: executing the native code produced by a successful `CompileBlock`
leaves a final guest-state record (registers, program counter, delay-slot
state and cycle count) identical to interpreting the same block
instruction-by-instruction, for every instruction block, every initial
guest state and every initial host-register content — covering both
dedicated-handler and fallback-routed instructions. -/
theorem compiled_block_matches_interpreter (block : List Instr) (ops : List HostOp)
    (hcomp : CompileBlock block = some ops) (g : GuestState) (hregs : HReg → Nat) :
    (runOps ops { hostRegs := hregs, guest := g }).guest = interpretBlock block g := by
  unfold CompileBlock at hcomp
  cases hcb : CompileBlockAux initialCache block with
  | none => rw [hcb] at hcomp; exact absurd hcomp (by simp)
  | some t =>
    obtain ⟨ops0, csF⟩ := t
    rw [hcb] at hcomp
    simp only [Option.map] at hcomp
    have hops : ops0 = ops := by
      injection hcomp
    subst hops
    obtain ⟨_, _, _, hrun⟩ :=
      CompileBlockAux_spec block initialCache ops0 csF WF_initialCache rfl hcb
    exact (hrun { hostRegs := hregs, guest := g } g (Inv_initial g hregs)).1

/-- Witness for `compiled_block_matches_interpreter`: a concrete mixed
block (dedicated handlers, a fallback-routed branch and its delay slot)
compiled and executed from a concrete state. -/
theorem compiled_block_matches_interpreter_witness :
    CompileBlock demoBlock = some ((CompileBlock demoBlock).getD []) ∧
    (runOps ((CompileBlock demoBlock).getD [])
        { hostRegs := fun _ => 0, guest := demoGuest }).guest =
      interpretBlock demoBlock demoGuest :=
  ⟨rfl, compiled_block_matches_interpreter demoBlock ((CompileBlock demoBlock).getD [])
    rfl demoGuest (fun _ => 0)⟩

lemma interpretBlock_branch_delay (c : Reg) (t imm : Nat) (g : GuestState)
    (hbt : g.branchTarget = none) :
    interpretBlock [.beq c 0 t, .addiu c c imm] g =
    { regs := writeReg g.regs c ((readReg g.regs c + signExt16 imm) % 2 ^ 32)
      pc := if readReg g.regs c = 0 then t else g.pc + 8
      branchTarget := none
      cycles := g.cycles + 2 } := by
  show interpretOne (interpretOne g (.beq c 0 t)) (.addiu c c imm) = _
  have h1 : interpretOne g (.beq c 0 t) =
      { regs := g.regs, pc := g.pc + 4,
        branchTarget := if readReg g.regs c = 0 then some t else none,
        cycles := g.cycles + 1 } := by
    apply GuestState.ext
    · rfl
    · show (match g.branchTarget with
            | some t' => t'
            | none => g.pc + 4) = g.pc + 4
      rw [hbt]
    · rfl
    · rfl
  rw [h1]
  apply GuestState.ext
  · rfl
  · show (match (if readReg g.regs c = 0 then some t else none) with
          | some t' => t'
          | none => g.pc + 4 + 4) = (if readReg g.regs c = 0 then t else g.pc + 8)
    by_cases hcond : readReg g.regs c = 0
    · rw [if_pos hcond, if_pos hcond]
    · rw [if_neg hcond, if_neg hcond]
  · rfl
  · rfl

/-- C2: for a block consisting of a runtime-conditional branch followed by
a delay-slot instruction that modifies the branch's own condition register,
the delay-slot instruction executes exactly once, the new program counter
becomes visible only after the delay slot completes, the branch decision
uses the pre-branch value of the condition register, and the compiled code
agrees with the interpreter while resolving the branch at runtime — the
same emitted code yields different final program counters for different
initial condition-register values. -/
theorem branch_delay_slot_semantics (c : Reg) (hc : c ≠ 0) (t imm : Nat)
    (g : GuestState) (hbt : g.branchTarget = none) :
    (interpretBlock [.beq c 0 t, .addiu c c imm] g).regs c =
      (readReg g.regs c + signExt16 imm) % 2 ^ 32 ∧
    (∀ r', r' ≠ c → (interpretBlock [.beq c 0 t, .addiu c c imm] g).regs r' = g.regs r') ∧
    (interpretBlock [.beq c 0 t, .addiu c c imm] g).pc =
      (if readReg g.regs c = 0 then t else g.pc + 8) ∧
    (interpretBlock [.beq c 0 t, .addiu c c imm] g).branchTarget = none ∧
    (interpretBlock [.beq c 0 t, .addiu c c imm] g).cycles = g.cycles + 2 ∧
    (∀ ops, CompileBlock [.beq c 0 t, .addiu c c imm] = some ops → ∀ hregs,
       (runOps ops { hostRegs := hregs, guest := g }).guest =
         interpretBlock [.beq c 0 t, .addiu c c imm] g) ∧
    (∀ ops, CompileBlock [.beq c 0 t, .addiu c c imm] = some ops →
       (runOps ops ⟨fun _ => 0, ⟨fun _ => 0, g.pc, none, 0⟩⟩).guest.pc = t ∧
       (runOps ops ⟨fun _ => 0, ⟨Function.update (fun _ => 0) c 1, g.pc, none, 0⟩⟩).guest.pc =
         g.pc + 8) := by
  have hib := interpretBlock_branch_delay c t imm g hbt
  have hwrself := readReg_writeReg_self g.regs c
    ((readReg g.regs c + signExt16 imm) % 2 ^ 32) hc
  refine ⟨?_, ?_, ?_, ?_, ?_, ?_, ?_⟩
  · rw [hib]
    show writeReg g.regs c ((readReg g.regs c + signExt16 imm) % 2 ^ 32) c = _
    have := hwrself
    unfold readReg at this
    rw [if_neg hc] at this
    exact this
  · intro r' hr'
    rw [hib]
    show writeReg g.regs c ((readReg g.regs c + signExt16 imm) % 2 ^ 32) r' = g.regs r'
    rw [writeReg_ne g.regs c _ hc]
    exact Function.update_noteq hr' _ _
  · rw [hib]
  · rw [hib]
  · rw [hib]
  · intro ops hcomp hregs
    exact compiled_block_matches_interpreter [.beq c 0 t, .addiu c c imm] ops hcomp g hregs
  · intro ops hcomp
    constructor
    · rw [compiled_block_matches_interpreter [.beq c 0 t, .addiu c c imm] ops hcomp
          ⟨fun _ => 0, g.pc, none, 0⟩ (fun _ => 0)]
      rw [interpretBlock_branch_delay c t imm _ rfl]
      show (if readReg (fun _ => 0) c = 0 then t else g.pc + 8) = t
      rw [if_pos]
      unfold readReg
      by_cases hz : c = 0
      · rw [if_pos hz]
      · rw [if_neg hz]
    · rw [compiled_block_matches_interpreter [.beq c 0 t, .addiu c c imm] ops hcomp
          ⟨Function.update (fun _ => 0) c 1, g.pc, none, 0⟩ (fun _ => 0)]
      rw [interpretBlock_branch_delay c t imm _ rfl]
      show (if readReg (Function.update (fun _ => 0) c 1) c = 0 then t else g.pc + 8) = g.pc + 8
      rw [if_neg]
      unfold readReg
      rw [if_neg hc, Function.update_same]
      decide

/-- Witness for `branch_delay_slot_semantics` at a concrete condition
register, branch target, immediate and initial state. -/
theorem branch_delay_slot_semantics_witness :
    (interpretBlock [.beq 1 0 200, .addiu 1 1 5] demoGuest).regs 1 =
      (readReg demoGuest.regs 1 + signExt16 5) % 2 ^ 32 :=
  (branch_delay_slot_semantics 1 (by decide) 200 5 demoGuest rfl).1

/-- C5: at the exit of every successfully compiled block no guest register
remains in `Cached` state, and the guest-state record in memory holds
exactly the architectural register values the interpreter would produce —
no authoritative value remains only in a host register. -/
theorem block_exit_flushes_all_cached (block : List Instr) (ops : List HostOp)
    (csF : RegisterCache)
    (hcomp : CompileBlockAux initialCache block = some (ops, csF)) :
    (∀ r h d, csF.regState r ≠ .cached h d) ∧
    ∀ g (hregs : HReg → Nat),
      (runOps ops { hostRegs := hregs, guest := g }).guest.regs =
        (interpretBlock block g).regs := by
  obtain ⟨_, _, hnc, hrun⟩ :=
    CompileBlockAux_spec block initialCache ops csF WF_initialCache rfl hcomp
  refine ⟨hnc, ?_⟩
  intro g hregs
  rw [(hrun { hostRegs := hregs, guest := g } g (Inv_initial g hregs)).1]

/-- Witness for `block_exit_flushes_all_cached`: after compiling a concrete
block, a specific register is not left in `Cached` state. -/
theorem block_exit_flushes_all_cached_witness :
    ((CompileBlockAux initialCache demoBlock).getD ([], initialCache)).2.regState 2 ≠
      GuestRegState.cached 0 true :=
  (block_exit_flushes_all_cached demoBlock
    ((CompileBlockAux initialCache demoBlock).getD ([], initialCache)).1
    ((CompileBlockAux initialCache demoBlock).getD ([], initialCache)).2 rfl).1 2 0 true

/-- C6: block compilation succeeds exactly when every instruction has a
dedicated handler or a fallback; an instruction without a dedicated handler
but with a fallback is compiled through `Compile_Fallback` (an emitted call
into the interpreter's semantics for that single opcode) instead of failing
the block. -/
theorem compile_fails_only_without_handler_or_fallback (block : List Instr) :
    ((CompileBlock block).isSome ↔
      ∀ i ∈ block, hasDedicated i = true ∨ hasFallback i = true) ∧
    (∀ (cs : RegisterCache) (i : Instr), hasDedicated i = false → hasFallback i = true →
      CompileInstruction cs i = Compile_Fallback cs i) := by
  have hiff : ∀ i : Instr, (hasDedicated i = true ∨ hasFallback i = true) ↔ i ≠ .invalid := by
    intro i
    cases i <;> simp [hasDedicated, hasFallback]
  constructor
  · constructor
    · intro hsome i hi
      rw [hiff i]
      have haux : (CompileBlockAux initialCache block).isSome := by
        unfold CompileBlock at hsome
        cases hcb : CompileBlockAux initialCache block with
        | none => rw [hcb] at hsome; exact absurd hsome (by simp)
        | some t => rfl
      exact CompileBlockAux_isSome_inv block initialCache haux i hi
    · intro hvalid
      have haux := CompileBlockAux_isSome block initialCache WF_initialCache rfl
        (fun i hi => (hiff i).mp (hvalid i hi))
      unfold CompileBlock
      obtain ⟨t, hcb⟩ := Option.isSome_iff_exists.mp haux
      rw [hcb]
      rfl
  · intro cs i hd hf
    cases i with
    | lui rt imm => exact absurd hd (by simp [hasDedicated])
    | ori rt rs imm => exact absurd hd (by simp [hasDedicated])
    | sll rd rt shamt => exact absurd hd (by simp [hasDedicated])
    | srl rd rt shamt => exact absurd hd (by simp [hasDedicated])
    | addiu rt rs imm => exact absurd hd (by simp [hasDedicated])
    | beq rs rt target => rfl
    | invalid => exact absurd hf (by simp [hasFallback])



/-- C4: on a well-formed cache with zero free host registers and at least
one unpinned cached register, `Allocate` succeeds by spilling the
least-recently-used unpinned cached register — flushing its dirty value to
the guest-state record — while the cache bindings of all other guest
registers (in particular those held in pinned host registers) and the
contents of every host register remain unchanged. -/
theorem Allocate_never_fails_spills_lru (cs : RegisterCache) (v : HReg)
    (hwf : WF cs)
    (hfull : ∀ h : HReg, h ∈ cs.lruOrder)
    (hv : cs.lruOrder.find? (fun h => decide (h ∉ cs.pinned)) = some v) :
    (Allocate cs).isSome ∧
    ∃ r d cs',
      cs.regState r = .cached v d ∧
      Allocate cs = some (v, (if d then [HostOp.storeGuestReg r v] else []), cs') ∧
      cs'.regState r = .inMemory ∧
      (∀ r', r' ≠ r → cs'.regState r' = cs.regState r') ∧
      cs'.pinned = cs.pinned ∧
      v ∉ cs.pinned ∧
      (∀ hs : HostState,
        (runOps (if d then [HostOp.storeGuestReg r v] else []) hs).hostRegs = hs.hostRegs) ∧
      (d = true → ∀ hs : HostState,
        (runOps [HostOp.storeGuestReg r v] hs).guest.regs r = hs.hostRegs v) := by
  have hfind : (List.finRange NHost).find? (fun h => decide (h ∉ cs.lruOrder)) = none := by
    rw [List.find?_eq_none]
    intro x _
    simp [hfull x]
  have hvnp : v ∉ cs.pinned := by simpa using List.find?_some hv
  obtain ⟨r0, d0, hc0⟩ := hwf.lruCached v (List.mem_of_find?_eq_some hv)
  obtain ⟨⟨r, d⟩, hfg⟩ := Option.isSome_iff_exists.mp (findCachedGuest_isSome cs v r0 d0 hc0)
  have hrv := findCachedGuest_sound cs v r d hfg
  have halloc := Allocate_eq_spill cs v r d hfind hv hfg
  refine ⟨by rw [halloc]; rfl, r, d, _, hrv, halloc, ?_, ?_, rfl, hvnp, ?_, ?_⟩
  · exact Function.update_same r _ cs.regState
  · intro r' hne
    exact Function.update_noteq hne _ _
  · intro hs
    cases d
    · rfl
    · rfl
  · intro _ hs
    exact Function.update_same r _ hs.guest.regs

/-- Witness for `Allocate_never_fails_spills_lru`: a concrete full cache
with two pinned host registers; the least-recently-used unpinned host
register holds a dirty guest register and is spilled. -/
theorem Allocate_never_fails_spills_lru_witness :
    (Allocate demoCache).isSome ∧
    ∃ r d cs',
      demoCache.regState r = .cached 2 d ∧
      Allocate demoCache = some (2, (if d then [HostOp.storeGuestReg r 2] else []), cs') ∧
      cs'.regState r = .inMemory ∧
      (∀ r', r' ≠ r → cs'.regState r' = demoCache.regState r') ∧
      cs'.pinned = demoCache.pinned ∧
      (2 : HReg) ∉ demoCache.pinned ∧
      (∀ hs : HostState,
        (runOps (if d then [HostOp.storeGuestReg r 2] else []) hs).hostRegs = hs.hostRegs) ∧
      (d = true → ∀ hs : HostState,
        (runOps [HostOp.storeGuestReg r 2] hs).guest.regs r = hs.hostRegs 2) :=
  Allocate_never_fails_spills_lru demoCache 2
    (by constructor <;> decide) (by decide) (by decide)


end CPU.Recompiler
